import Mathlib

set_option maxRecDepth 10000

/-!
Verification development for the food-analyzer service.

The nucleus of the service is its structured-response extraction pipeline:
a raw text reply from a generative model is stripped of markdown code
fences, parsed as JSON, and validated against one of four response shapes.
The fence-stripping and parsing logic appears verbatim in
`AnalyzeFoodTool.__call__`, `NutritionCalculatorTool.__call__` and
`DishComparisonTool.__call__` (src/agent.py lines 57-65, 109-116, 164-171):

  if "```json" in content:
      json_str = content.split("```json")[1].split("```")[0].strip()
  elif "```" in content:
      json_str = content.split("```")[1].split("```")[0].strip()
  else:
      json_str = content.strip()
  return json.loads(json_str)

This file embeds that pipeline (text as `List Char`, Python `str.split`,
`str.strip`, `json.loads`, dict item access), the agent-level wrappers of
src/agent.py, the helper of src/tools.py and the persistence helpers of
src/database.py, and proves properties of the embedding.

Modeling boundaries, stated once here: JSON numbers are modeled as integers
(no fractional or special float literals; no claim touches non-integer
numbers); string escapes cover the JSON short escapes but not \uXXXX; the
parser accepts control characters literally inside string literals where
CPython's strict decoder would demand escapes.  Python's `str.strip` is
modeled over the whitespace characters space, tab, newline and carriage
return.  None of these boundaries is exercised by any concrete input
appearing below.
-/

/-- Text is modeled as a list of characters. -/
abbrev Str : Type := List Char

/-- Whitespace test used both by the JSON grammar and by the model of
Python `str.strip` (space, tab, line feed, carriage return). -/
def isWsC (c : Char) : Bool :=
  c.toNat = 32 || c.toNat = 9 || c.toNat = 10 || c.toNat = 13

/-- ASCII decimal digit test. -/
def isDigitC (c : Char) : Bool :=
  48 ≤ c.toNat && c.toNat ≤ 57

/-- Leading-whitespace removal. -/
def trimLeft (s : Str) : Str := s.dropWhile isWsC

/-- Trailing-whitespace removal. -/
def trimRight (s : Str) : Str := (s.reverse.dropWhile isWsC).reverse

/-- Model of Python `str.strip()`: drop leading and trailing whitespace. -/
def pystrip (s : Str) : Str := trimRight (trimLeft s)

/-- Locate the first occurrence of `sep` in `s`: returns the text before
the occurrence and the text after it, or `none` when `sep` does not occur.
This is the scanning step underlying Python's `str.split` and `in`. -/
def findSplit (sep : Str) : Str → Option (Str × Str)
  | [] => none
  | c :: rest =>
    if sep.isPrefixOf (c :: rest) then some ([], (c :: rest).drop sep.length)
    else
      match findSplit sep rest with
      | some (pre, post) => some (c :: pre, post)
      | none => none

/-- Model of Python's substring containment test `sep in s`
(for a non-empty separator). -/
def containsSeq (sep : Str) (s : Str) : Bool := (findSplit sep s).isSome

/-- Splitting on successive occurrences of `sep`, with a recursion budget;
each occurrence consumed shortens the remaining text, so any budget above
the text length is ample. -/
def pysplitF : Nat → Str → Str → List Str
  | 0, _, s => [s]
  | fuel + 1, sep, s =>
    match findSplit sep s with
    | none => [s]
    | some (pre, post) => pre :: pysplitF fuel sep post

/-- Model of Python `s.split(sep)` for a non-empty separator: split at each
non-overlapping occurrence of `sep`, scanning left to right. -/
def pysplit (sep : Str) (s : Str) : List Str := pysplitF (s.length + 1) sep s

/-- Python `s.split(sep)[0]`: the piece before the first occurrence. -/
def splitIdx0 (sep : Str) (s : Str) : Str :=
  match pysplit sep s with
  | x :: _ => x
  | [] => []

/-- Python `s.split(sep)[1]`: the piece between the first and second
occurrences.  The callers below only use it under a guard that `sep`
occurs in `s`, which makes the split list have at least two pieces;
the `[]` default is unreachable under that guard. -/
def splitIdx1 (sep : Str) (s : Str) : Str :=
  match pysplit sep s with
  | _ :: x :: _ => x
  | _ => []

/-- The `json`-labeled fence delimiter searched for first. -/
def fenceJson : Str := ("```json").data

/-- The bare fence delimiter. -/
def fence : Str := ("```").data

/-- The candidate-payload selection of src/agent.py lines 58-63 (repeated
verbatim at lines 109-114 and 164-169): if the text contains "```json",
take `content.split("```json")[1].split("```")[0].strip()`; otherwise if
it contains "```", take `content.split("```")[1].split("```")[0].strip()`;
otherwise `content.strip()`. -/
def extractJsonStr (content : Str) : Str :=
  if containsSeq fenceJson content then
    pystrip (splitIdx0 fence (splitIdx1 fenceJson content))
  else if containsSeq fence content then
    pystrip (splitIdx0 fence (splitIdx1 fence content))
  else
    pystrip content

/-- Definition following the words of the specification's fence-detection
step (spec section 4.1, algorithm step 1), for comparison with
`extractJsonStr`: a json-labeled fenced BLOCK is an opening "```json"
delimiter with a later closing "```" delimiter, and its candidate is the
substring between them; a generic fenced block is a pair of "```"
delimiters, and its candidate is the substring between the first such
pair; otherwise the candidate is the entire trimmed text.  Trimming
(algorithm step 2) is applied to the selected candidate in every tier. -/
def candidateSpecC3 (raw : Str) : Str :=
  match findSplit fenceJson raw with
  | some (_, afterOpen) =>
    match findSplit fence afterOpen with
    | some (pre, _) => pystrip pre
    | none =>
      match findSplit fence raw with
      | some (_, afterTick) =>
        match findSplit fence afterTick with
        | some (pre, _) => pystrip pre
        | none => pystrip raw
      | none => pystrip raw
  | none =>
    match findSplit fence raw with
    | some (_, afterTick) =>
      match findSplit fence afterTick with
      | some (pre, _) => pystrip pre
      | none => pystrip raw
    | none => pystrip raw

/-- Restatement of what the source code's selection actually computes, in
first-occurrence terms rather than split-list indexing: with "```json"
present, take the text after its first occurrence, truncated at the next
"```json" if any, then truncated at the first "```" inside that segment;
with only "```" present, take the text between its first and second
occurrences (all remaining text when there is no second); otherwise the
whole text.  The selected text is trimmed.  No closing delimiter is
required by the code: an unclosed fence yields the remainder of the text. -/
def candidateAmendedC3 (raw : Str) : Str :=
  match findSplit fenceJson raw with
  | some (_, afterOpen) =>
    let seg :=
      match findSplit fenceJson afterOpen with
      | some (pre, _) => pre
      | none => afterOpen
    pystrip (match findSplit fence seg with
             | some (pre, _) => pre
             | none => seg)
  | none =>
    match findSplit fence raw with
    | some (_, afterTick) =>
      pystrip (match findSplit fence afterTick with
               | some (pre, _) => pre
               | none => afterTick)
    | none => pystrip raw

/-- JSON values, the result of the model of `json.loads`.  Numbers are
modeled as integers (see the header note). -/
inductive Json where
  | null
  | bool (b : Bool)
  | num (n : Int)
  | str (s : Str)
  | arr (elems : List Json)
  | obj (members : List (Str × Json))

mutual

/-- Structural size of a JSON value, used as a recursion budget bound. -/
def sizeJ : Json → Nat
  | .null => 1
  | .bool _ => 1
  | .num _ => 1
  | .str _ => 1
  | .arr l => 1 + sizeElems l
  | .obj l => 1 + sizeMembers l

def sizeElems : List Json → Nat
  | [] => 0
  | x :: xs => 1 + sizeJ x + sizeElems xs

def sizeMembers : List (Str × Json) → Nat
  | [] => 0
  | (_, v) :: ms => 1 + sizeJ v + sizeMembers ms

end

/-- JSON short escapes, as understood after a backslash inside a string
literal. -/
def unescapeC (c : Char) : Option Char :=
  if c = '"' then some '"'
  else if c = '\\' then some '\\'
  else if c = '/' then some '/'
  else if c = 'n' then some '\n'
  else if c = 't' then some '\t'
  else if c = 'r' then some '\r'
  else if c = 'b' then some (Char.ofNat 8)
  else if c = 'f' then some (Char.ofNat 12)
  else none

/-- Parse the body of a JSON string literal (the opening quote already
consumed); returns the decoded text and the input after the closing
quote. -/
def parseStrAux : Str → Option (Str × Str)
  | [] => none
  | c :: rest =>
    if c = '"' then some ([], rest)
    else if c = '\\' then
      match rest with
      | [] => none
      | e :: rest2 =>
        match unescapeC e with
        | some c2 => (parseStrAux rest2).map (fun p => (c2 :: p.1, p.2))
        | none => none
    else (parseStrAux rest).map (fun p => (c :: p.1, p.2))

/-- Numeric value of a run of ASCII digits. -/
def digitsValNat (s : Str) : Nat :=
  s.foldl (fun acc c => 10 * acc + (c.toNat - 48)) 0

/-- Parse a non-empty run of digits; fails on an empty run. -/
def parseDigits (s : Str) : Option (Nat × Str) :=
  let run := s.takeWhile isDigitC
  if run = [] then none else some (digitsValNat run, s.dropWhile isDigitC)

/-- Consume an expected literal continuation (for `true`, `false`,
`null`). -/
def dropLit (lit : Str) (s : Str) : Option Str :=
  if lit.isPrefixOf s then some (s.drop lit.length) else none

mutual

/-- Recursive-descent JSON value parser with an explicit recursion budget;
`parseMembers` parses the members of a non-empty object up to and
including the closing brace, `parseElems` likewise for arrays.  Inter-token
whitespace is skipped. -/
def parseValue : Nat → Str → Option (Json × Str)
  | 0, _ => none
  | fuel + 1, s =>
    match trimLeft s with
    | [] => none
    | c :: rest =>
      if c = '"' then (parseStrAux rest).map (fun p => (Json.str p.1, p.2))
      else if c = '\x7b' then
        match trimLeft rest with
        | [] => none
        | c2 :: rest2 =>
          if c2 = '\x7d' then some (Json.obj [], rest2)
          else (parseMembers fuel (c2 :: rest2)).map (fun p => (Json.obj p.1, p.2))
      else if c = '[' then
        match trimLeft rest with
        | [] => none
        | c2 :: rest2 =>
          if c2 = ']' then some (Json.arr [], rest2)
          else (parseElems fuel (c2 :: rest2)).map (fun p => (Json.arr p.1, p.2))
      else if c = 't' then (dropLit ("rue").data rest).map (fun r => (Json.bool true, r))
      else if c = 'f' then (dropLit ("alse").data rest).map (fun r => (Json.bool false, r))
      else if c = 'n' then (dropLit ("ull").data rest).map (fun r => (Json.null, r))
      else if c = '-' then (parseDigits rest).map (fun p => (Json.num (-(p.1 : Int)), p.2))
      else if isDigitC c then (parseDigits (c :: rest)).map (fun p => (Json.num (p.1 : Int), p.2))
      else none

def parseMembers : Nat → Str → Option (List (Str × Json) × Str)
  | 0, _ => none
  | fuel + 1, s =>
    match trimLeft s with
    | [] => none
    | c :: rest =>
      if c = '"' then
        match parseStrAux rest with
        | none => none
        | some (key, r1) =>
          match trimLeft r1 with
          | [] => none
          | c2 :: r2 =>
            if c2 = ':' then
              match parseValue fuel r2 with
              | none => none
              | some (v, r3) =>
                match trimLeft r3 with
                | [] => none
                | c3 :: r4 =>
                  if c3 = ',' then (parseMembers fuel r4).map (fun p => ((key, v) :: p.1, p.2))
                  else if c3 = '\x7d' then some ([(key, v)], r4)
                  else none
            else none
      else none

def parseElems : Nat → Str → Option (List Json × Str)
  | 0, _ => none
  | fuel + 1, s =>
    match parseValue fuel s with
    | none => none
    | some (v, r1) =>
      match trimLeft r1 with
      | [] => none
      | c :: r2 =>
        if c = ',' then (parseElems fuel r2).map (fun p => (v :: p.1, p.2))
        else if c = ']' then some ([v], r2)
        else none

end

/-- Model of `json.loads`: parse one JSON document, allowing surrounding
whitespace and rejecting trailing garbage; `none` models a raised
`json.JSONDecodeError`.  The budget `s.length + 1` dominates the size of
any value the input can denote. -/
def pyJsonLoads (s : Str) : Option Json :=
  match parseValue (s.length + 1) s with
  | some (j, rest) => if trimLeft rest = [] then some j else none
  | none => none

/-- Serialize one character of JSON string content, escaping the quote and
the backslash. -/
def escChar (c : Char) : Str :=
  if c = '"' then ['\\', '"'] else if c = '\\' then ['\\', '\\'] else [c]

/-- Serialize JSON string content. -/
def escStr : Str → Str
  | [] => []
  | c :: t => escChar c ++ escStr t

/-- Serialize a JSON string literal. -/
def serStr (s : Str) : Str := '"' :: escStr s ++ ['"']

/-- Decimal digit character. -/
def digitChar (d : Nat) : Char := Char.ofNat (48 + d)

/-- Big-endian decimal digits of a natural number, with a recursion
budget. -/
def natDigitsF : Nat → Nat → Str
  | 0, _ => []
  | fuel + 1, n => if n = 0 then [] else natDigitsF fuel (n / 10) ++ [digitChar (n % 10)]

/-- Decimal notation of a natural number. -/
def natDigits (n : Nat) : Str := if n = 0 then ['0'] else natDigitsF (n + 1) n

/-- Decimal notation of an integer. -/
def serInt (n : Int) : Str :=
  if n < 0 then '-' :: natDigits n.natAbs else natDigits n.toNat

mutual

/-- Serialize a JSON value in compact notation (no inter-token
whitespace), the model of payload construction and of `json.dumps`. -/
def serValue : Json → Str
  | .null => ("null").data
  | .bool true => ("true").data
  | .bool false => ("false").data
  | .num n => serInt n
  | .str s => serStr s
  | .arr [] => ("[]").data
  | .arr (x :: xs) => '[' :: (serValue x ++ serElemsTail xs ++ [']'])
  | .obj [] => ("\x7b\x7d").data
  | .obj ((k, v) :: ms) =>
    '\x7b' :: (serStr k ++ ':' :: serValue v ++ serMembersTail ms ++ ['\x7d'])

/-- Comma-prefixed serialization of the remaining array elements. -/
def serElemsTail : List Json → Str
  | [] => []
  | y :: ys => ',' :: serValue y ++ serElemsTail ys

/-- Comma-prefixed serialization of the remaining object members. -/
def serMembersTail : List (Str × Json) → Str
  | [] => []
  | (k, v) :: ms => ',' :: serStr k ++ ':' :: serValue v ++ serMembersTail ms

end

/-- Python errors that the source can raise inside the pipelines; the
specification's `MalformedPayload` is `jsonDecodeError` (carrying the
candidate string) and its `SchemaMismatch` is `keyError` (carrying the
missing field named by the exception). -/
inductive PyErr where
  | jsonDecodeError (candidate : Str)
  | keyError (key : Str)
  | typeError
  | attributeError (attr : Str)
  | exceptionMsg (msg : Str)
  | apiError (msg : Str)

/-- Lookup in a parsed JSON object, with Python `dict` semantics: when a
key is repeated, the last occurrence wins. -/
def pyLookup (m : List (Str × Json)) (key : Str) : Option Json :=
  m.foldl (fun acc kv => if kv.1 = key then some kv.2 else acc) none

/-- Model of Python subscription `j[key]`: `KeyError` when the key is
absent, `TypeError` when the parsed payload is not an object. -/
def pyGetItem (j : Json) (key : Str) : Except PyErr Json :=
  match j with
  | .obj m =>
    match pyLookup m key with
    | some v => .ok v
    | none => .error (.keyError key)
  | _ => .error .typeError

/-- Model of Python `j.get(key, dflt)`. -/
def pyGetDefault (j : Json) (key : Str) (dflt : Json) : Json :=
  match j with
  | .obj m => (pyLookup m key).getD dflt
  | _ => dflt

/-- The shared tail of each tool's `__call__` (src/agent.py lines 57-65):
select the candidate payload, then `json.loads` it; a parse failure is
the raised `json.JSONDecodeError`, carrying the candidate. -/
def toolParse (content : Str) : Except PyErr Json :=
  match pyJsonLoads (extractJsonStr content) with
  | some j => .ok j
  | none => .error (.jsonDecodeError (extractJsonStr content))

/-- The four response shapes of the specification's data model. -/
inductive SchemaKind where
  | dishAnalysis
  | nutritionEstimate
  | substituteList
  | dishComparison

/-- Result of a successful extraction, as the source actually shapes it:
the dish-analysis pipeline reads four required fields out of the parsed
payload (src/agent.py lines 242, 250-253); the nutrition and comparison
pipelines pass the parsed payload through wholesale (src/agent.py lines
271+283 and 301+313); the substitute pipeline reads `ingredient` and
`substitutes` and defaults `category` (src/tools.py lines 27-29). -/
inductive ShapedRecord where
  | dish (dish_name ingredients recipe_steps fun_facts : Json)
  | nutrition (payload : Json)
  | comparison (payload : Json)
  | substitutes (ingredient category substitutes : Json)

def keyDishName : Str := ("dish_name").data
def keyIngredients : Str := ("ingredients").data
def keyRecipeSteps : Str := ("recipe_steps").data
def keyFunFacts : Str := ("fun_facts").data
def keyIngredient : Str := ("ingredient").data
def keyCategory : Str := ("category").data
def keySubstitutes : Str := ("substitutes").data

/-- Modelled from the spec: src/agent.py defines no `get_substitutes`
method on `FoodAnalyzerAgent`, so the repository contains no extraction
pipeline for the SubstituteList shape — only its caller (src/tools.py
lines 22-34).  The spec (sections 2-3) states all four shapes share the
one extraction mechanism; the required fields `ingredient` and
`substitutes` and the `"general"` default for a missing `category` are
taken from the caller's accesses `result["ingredient"]`,
`result.get("category", "general")`, `result["substitutes"]`
(src/tools.py lines 27-29). -/
def extractSubstituteRecord (j : Json) : Except PyErr ShapedRecord :=
  match pyGetItem j keyIngredient with
  | .error e => .error e
  | .ok ing =>
    match pyGetItem j keySubstitutes with
    | .error e => .error e
    | .ok subs =>
      .ok (.substitutes ing (pyGetDefault j keyCategory (Json.str ("general").data)) subs)

/-- The extraction pipeline over one of the four schema kinds: candidate
selection, parse, then the field accesses the source performs for that
kind.  Field-access order for DishAnalysis follows src/agent.py lines
242 and 250-253: `dish_name`, then `ingredients`, `recipe_steps`,
`fun_facts`. -/
def extract (raw : Str) (k : SchemaKind) : Except PyErr ShapedRecord :=
  match toolParse raw with
  | .error e => .error e
  | .ok j =>
    match k with
    | .nutritionEstimate => .ok (.nutrition j)
    | .dishComparison => .ok (.comparison j)
    | .dishAnalysis =>
      match pyGetItem j keyDishName with
      | .error e => .error e
      | .ok d =>
        match pyGetItem j keyIngredients with
        | .error e => .error e
        | .ok i =>
          match pyGetItem j keyRecipeSteps with
          | .error e => .error e
          | .ok r =>
            match pyGetItem j keyFunFacts with
            | .error e => .error e
            | .ok f => .ok (.dish d i r f)
    | .substituteList => extractSubstituteRecord j

/-- The four entity shapes of the specification's data model (spec
section 3), with numeric fields as integers. -/
inductive Entity where
  | dishAnalysis (dish_name : Str) (ingredients recipe_steps fun_facts : List Str)
  | nutritionEstimate (serving_size : Str) (calories proteins carbs fats fiber : Int)
      (notes : Str)
  | substituteList (ingredient category : Str) (substitutes : List (Str × Str))
  | dishComparison (similarity_score : Int)
      (common_ingredients unique_to_dish1 unique_to_dish2 : List Str)
      (culinary_relationship cultural_context : Str) (key_differences : List Str)

/-- Schema kind an entity belongs to. -/
def kindOf : Entity → SchemaKind
  | .dishAnalysis .. => .dishAnalysis
  | .nutritionEstimate .. => .nutritionEstimate
  | .substituteList .. => .substituteList
  | .dishComparison .. => .dishComparison

/-- JSON array of strings. -/
def strArr (l : List Str) : Json := .arr (l.map .str)

/-- Modelled from the spec: payload construction for a known entity value
(the round-trip property of spec section 8; the repository itself never
serializes an entity into a model reply, so the construction follows the
field tables of spec section 3, each field under its required name and
substitutes as an array of name/reason objects). -/
def toPayload : Entity → Json
  | .dishAnalysis dn i r f =>
    .obj [(keyDishName, .str dn), (keyIngredients, strArr i),
          (keyRecipeSteps, strArr r), (keyFunFacts, strArr f)]
  | .nutritionEstimate sz cal p c fa fi notes =>
    .obj [(("serving_size").data, .str sz), (("calories").data, .num cal),
          (("proteins").data, .num p), (("carbs").data, .num c),
          (("fats").data, .num fa), (("fiber").data, .num fi),
          (("notes").data, .str notes)]
  | .substituteList ing cat subs =>
    .obj [(keyIngredient, .str ing), (keyCategory, .str cat),
          (keySubstitutes,
           .arr (subs.map (fun p =>
             Json.obj [(("name").data, .str p.1), (("reason").data, .str p.2)])))]
  | .dishComparison sc ci u1 u2 cr cc kd =>
    .obj [(("similarity_score").data, .num sc),
          (("common_ingredients").data, strArr ci),
          (("unique_to_dish1").data, strArr u1),
          (("unique_to_dish2").data, strArr u2),
          (("culinary_relationship").data, .str cr),
          (("cultural_context").data, .str cc),
          (("key_differences").data, strArr kd)]

/-- Serialized payload text of an entity. -/
def serializeEntity (e : Entity) : Str := serValue (toPayload e)

/-- The shaped record the pipeline is expected to produce for an entity:
the dish pipeline yields the four fields; the nutrition and comparison
pipelines yield the whole payload; the substitute pipeline yields the
`ingredient`, `category` and `substitutes` fields. -/
def recordOf : Entity → ShapedRecord
  | .dishAnalysis dn i r f => .dish (.str dn) (strArr i) (strArr r) (strArr f)
  | .nutritionEstimate sz cal p c fa fi notes =>
    .nutrition (toPayload (.nutritionEstimate sz cal p c fa fi notes))
  | .substituteList ing cat subs =>
    .substitutes (.str ing) (.str cat)
      (.arr (subs.map (fun p =>
        Json.obj [(("name").data, .str p.1), (("reason").data, .str p.2)])))
  | .dishComparison sc ci u1 u2 cr cc kd =>
    .comparison (toPayload (.dishComparison sc ci u1 u2 cr cc kd))

/-- One stored row of the `food_analyses` table (src/database.py lines
19-28).  The three list-valued columns hold `json.dumps` text, the
timestamp column is not modeled (no claim touches it). -/
structure AnalysisRow where
  id : Nat
  dish_name : Str
  ingredients : Str
  recipe_steps : Str
  fun_facts : Str
  image_hash : Option Str

/-- The SQLite database state: the stored rows plus the AUTOINCREMENT
counter that supplies the next `id`. -/
structure DB where
  rows : List AnalysisRow
  nextId : Nat

/-- AUTOINCREMENT invariant: every stored id is below the counter. -/
def DBWellFormed (db : DB) : Prop :=
  ∀ r ∈ db.rows, r.id < db.nextId

/-- Model of `save_analysis` (src/database.py lines 37-52): INSERT a row
whose list columns hold `json.dumps(·, ensure_ascii=False)` text, and
return `cursor.lastrowid`. -/
def save_analysis (db : DB) (dish_name : Str)
    (ingredients recipe_steps fun_facts : List Str) (image_hash : Option Str) :
    DB × Nat :=
  (⟨db.rows ++ [⟨db.nextId, dish_name, serValue (strArr ingredients),
                serValue (strArr recipe_steps), serValue (strArr fun_facts),
                image_hash⟩],
    db.nextId + 1⟩,
   db.nextId)

/-- The dictionary `get_analysis_by_id` builds from a row (src/database.py
lines 82-90): the three list columns are `json.loads`-decoded. -/
structure AnalysisRecord where
  id : Nat
  dish_name : Str
  ingredients : Option Json
  recipe_steps : Option Json
  fun_facts : Option Json

/-- Model of `get_analysis_by_id` (src/database.py lines 75-91): the
first row with the requested id, decoded; `none` when absent. -/
def get_analysis_by_id (db : DB) (analysis_id : Nat) : Option AnalysisRecord :=
  match db.rows.find? (fun r => r.id = analysis_id) with
  | some r =>
    some ⟨r.id, r.dish_name, pyJsonLoads r.ingredients,
          pyJsonLoads r.recipe_steps, pyJsonLoads r.fun_facts⟩
  | none => none

/-- Values stored in the result dictionaries the agent methods return. -/
inductive PyVal where
  | bool (b : Bool)
  | str (s : Str)
  | jsonVal (j : Json)
  | noneVal

/-- Result dictionaries, as association lists. -/
abbrev PyDict : Type := List (Str × PyVal)

/-- Dictionary lookup (later bindings win, as in Python). -/
def dictLookup (d : PyDict) (key : Str) : Option PyVal :=
  d.foldl (fun acc kv => if kv.1 = key then some kv.2 else acc) none

/-- Python subscription on a result dictionary. -/
def dictGetItem (d : PyDict) (key : Str) : Except PyErr PyVal :=
  match dictLookup d key with
  | some v => .ok v
  | none => .error (.keyError key)

/-- Model of `str(e)` as the agent interpolates a caught exception into
its `"error"` entry; only its presence matters to any claim, so the
renderings are schematic except for `KeyError`, whose `str` is the quoted
missing key. -/
def strOfPyErr : PyErr → Str
  | .jsonDecodeError _ => ("Expecting value").data
  | .keyError k => Char.ofNat 39 :: k ++ [Char.ofNat 39]
  | .typeError => ("string indices must be integers").data
  | .attributeError a => ("FoodAnalyzerAgent object has no attribute ").data ++ a
  | .exceptionMsg m => m
  | .apiError m => m

/-- Python truthiness of an optional dictionary entry, as used by
`if result["success"]`-style tests. -/
def pyTruthy : Option PyVal → Bool
  | none => false
  | some (.bool b) => b
  | some (.str s) => !s.isEmpty
  | some (.jsonVal _) => true
  | some .noneVal => false

/-- The `try/except` wrapper every public agent method ends with
(src/agent.py lines 258-262, 288-292, 318-322): a raised exception
becomes `\x7b"success": False, "error": str(e)\x7d`. -/
def runAgentOp (body : Except PyErr PyDict) : PyDict :=
  match body with
  | .ok d => d
  | .error e => [(("success").data, .bool false), (("error").data, .str (strOfPyErr e))]

/-- Rationale rendering: `prediction.rationale if hasattr(...) else None`. -/
def rationaleVal : Option Str → PyVal
  | some s => .str s
  | none => .noneVal

namespace FoodAnalyzerAgent

/-- Model of `FoodAnalyzerAgent.analyze_image` (src/agent.py lines
236-262).  The two generative-model invocations are oracles:
`visionReply` is the text reply of the vision call inside
`AnalyzeFoodTool.__call__` (or its raised invocation error), `cotReply`
is the outcome of the `dspy.ChainOfThought` call (its optional rationale,
or its raised error).  Field accesses follow source order: `dish_name`
at line 242 before the ChainOfThought call, the remaining fields in the
result literal at lines 250-253. -/
def analyze_image (visionReply : Except PyErr Str)
    (cotReply : Except PyErr (Option Str)) : PyDict :=
  runAgentOp (do
    let content ← visionReply
    let j ← toolParse content
    let d ← pyGetItem j keyDishName
    let rationale ← cotReply
    let i ← pyGetItem j keyIngredients
    let r ← pyGetItem j keyRecipeSteps
    let f ← pyGetItem j keyFunFacts
    pure [(("success").data, .bool true), (keyDishName, .jsonVal d),
          (keyIngredients, .jsonVal i), (keyRecipeSteps, .jsonVal r),
          (keyFunFacts, .jsonVal f),
          (("agent_reasoning").data, rationaleVal rationale),
          (("tool_used").data, .str ("analyze_food_image").data)])

/-- Default used by `get_nutrition` when `ingredients` is `None` or empty
(src/agent.py lines 268-269); it only feeds the prompt of the oracle
call. -/
def defaultIngredients : Option (List Str) → List Str
  | none => [("ingredientes estándar").data]
  | some [] => [("ingredientes estándar").data]
  | some l => l

/-- Model of `FoodAnalyzerAgent.get_nutrition` (src/agent.py lines
265-292); the nutrition payload is passed through wholesale, no field of
it is accessed. -/
def get_nutrition (dish_name : Str) (ingredients : Option (List Str))
    (nutriReply : Except PyErr Str) (cotReply : Except PyErr (Option Str)) : PyDict :=
  runAgentOp (do
    let _ings := defaultIngredients ingredients
    let content ← nutriReply
    let nj ← toolParse content
    let rationale ← cotReply
    pure [(("success").data, .bool true), (keyDishName, .str dish_name),
          (("nutrition").data, .jsonVal nj),
          (("agent_reasoning").data, rationaleVal rationale),
          (("tool_used").data, .str ("calculate_nutrition").data)])

/-- Model of `FoodAnalyzerAgent.compare` (src/agent.py lines 294-322);
the comparison payload is passed through wholesale. -/
def compare (dish1_name : Str) (dish1_ingredients : List Str) (dish2_name : Str)
    (dish2_ingredients : List Str) (compReply : Except PyErr Str)
    (cotReply : Except PyErr (Option Str)) : PyDict :=
  runAgentOp (do
    let content ← compReply
    let cj ← toolParse content
    let rationale ← cotReply
    pure [(("success").data, .bool true), (("comparison").data, .jsonVal cj),
          (("agent_reasoning").data, rationaleVal rationale),
          (("tool_used").data, .str ("compare_dishes").data)])

end FoodAnalyzerAgent

/-- src/agent.py defines the methods `analyze_image`, `get_nutrition` and
`compare` on `FoodAnalyzerAgent` (lines 236, 265, 294) and no
`get_substitutes`, so the attribute access `agent.get_substitutes` at
src/tools.py line 23 raises `AttributeError` before any prompt, tool or
extraction work can happen, for every argument pair. -/
def agentGetSubstitutes (_ingredient _context : Str) : Except PyErr PyDict :=
  .error (.attributeError ("get_substitutes").data)

/-- Model of `get_ingredient_substitutes` (src/tools.py lines 11-34):
call the agent, and on a truthy `"success"` build the substitute record
(`ingredient` and `substitutes` required, `category` defaulted to
`"general"`); on a falsy one raise `Exception("Agent error: ...")`. -/
def get_ingredient_substitutes (ingredient context : Str) : Except PyErr PyDict := do
  let result ← agentGetSubstitutes ingredient context
  if pyTruthy (dictLookup result ("success").data) then
    let ing ← dictGetItem result keyIngredient
    let cat := (dictLookup result keyCategory).getD (.str ("general").data)
    let subs ← dictGetItem result keySubstitutes
    pure [(keyIngredient, ing), (keyCategory, cat), (keySubstitutes, subs),
          (("agent_reasoning").data,
           (dictLookup result ("agent_reasoning").data).getD .noneVal),
          (("source").data, .str ("agent").data)]
  else
    .error (.exceptionMsg
      (match dictLookup result ("error").data with
       | some (.str s) => ("Agent error: ").data ++ s
       | _ => ("Agent error: Unknown error").data))

/-- A payload presented wrapped in a `json`-labeled fence. -/
def wrapJsonFence (p : Str) : Str := ("```json\n").data ++ p ++ ("\n```").data

/-- A payload presented wrapped in a generic (unlabeled) fence. -/
def wrapFence (p : Str) : Str := ("```\n").data ++ p ++ ("\n```").data

/-- The required fields of the DishAnalysis shape, in the order the
source accesses them (src/agent.py lines 242 and 250-253). -/
def requiredDishKeys : List Str :=
  [keyDishName, keyIngredients, keyRecipeSteps, keyFunFacts]

/-- First required DishAnalysis field absent from a parsed object. -/
def firstMissingDish (m : List (Str × Json)) : Option Str :=
  requiredDishKeys.find? (fun k => (pyLookup m k).isNone)

/-- Texts whose head (if any) is a character that ends a JSON value in
context: a comma, a closing brace or a closing bracket.  The serialized
form of a value is followed by such text wherever the round-trip lemmas
below apply. -/
def delimOkB : Str → Bool
  | [] => true
  | c :: _ => c = ',' || c = '\x7d' || c = ']'

/-! Helper lemmas: occurrence search and Python split. -/

theorem findSplit_cons (sep : Str) (c : Char) (s : Str) :
    findSplit sep (c :: s) =
      if sep.isPrefixOf (c :: s) then some ([], (c :: s).drop sep.length)
      else
        match findSplit sep s with
        | some (pre, post) => some (c :: pre, post)
        | none => none := rfl

theorem findSplit_isSome_of_isPrefixOf {sep : Str} {c : Char} {s : Str}
    (h : sep.isPrefixOf (c :: s) = true) : findSplit sep (c :: s) ≠ none := by
  rw [findSplit_cons, if_pos h]
  simp

theorem findSplit_none_cons {sep : Str} {c : Char} {s : Str}
    (h : findSplit sep (c :: s) = none) :
    sep.isPrefixOf (c :: s) = false ∧ findSplit sep s = none := by
  rw [findSplit_cons] at h
  by_cases hp : sep.isPrefixOf (c :: s)
  · rw [if_pos hp] at h; exact absurd h (by simp)
  · rw [if_neg hp] at h
    refine ⟨by simp [hp], ?_⟩
    cases hf : findSplit sep s with
    | none => rfl
    | some pr => rw [hf] at h; cases pr; simp at h

theorem findSplit_cons_of_no_match {sep : Str} {c : Char} {s : Str}
    (h : ¬ sep.isPrefixOf (c :: s) = true) :
    findSplit sep (c :: s) = (findSplit sep s).map (fun pr => (c :: pr.1, pr.2)) := by
  rw [findSplit_cons, if_neg h]
  cases findSplit sep s with
  | none => rfl
  | some pr => cases pr; rfl

theorem findSplit_some_length {sep : Str} (hsep : sep ≠ []) :
    ∀ {s pre post : Str}, findSplit sep s = some (pre, post) →
      post.length < s.length := by
  intro s
  induction s with
  | nil => intro pre post h; simp [findSplit] at h
  | cons c rest ih =>
    intro pre post h
    rw [findSplit_cons] at h
    by_cases hp : sep.isPrefixOf (c :: rest)
    · rw [if_pos hp] at h
      simp only [Option.some.injEq, Prod.mk.injEq] at h
      obtain ⟨-, h2⟩ := h
      subst h2
      have hlen : 1 ≤ sep.length := by
        cases sep with
        | nil => exact absurd rfl hsep
        | cons a as => simp
      simp only [List.length_drop, List.length_cons]
      omega
    · rw [if_neg hp] at h
      cases hf : findSplit sep rest with
      | none => rw [hf] at h; simp at h
      | some pr =>
        rw [hf] at h
        obtain ⟨pre', post'⟩ := pr
        simp only [Option.some.injEq, Prod.mk.injEq] at h
        obtain ⟨-, h2⟩ := h
        subst h2
        have := ih hf
        simp only [List.length_cons]
        omega

theorem pysplitF_succ_none {sep s : Str} {f : Nat} (h : findSplit sep s = none) :
    pysplitF (f + 1) sep s = [s] := by
  simp [pysplitF, h]

theorem pysplitF_succ_some {sep s pre post : Str} {f : Nat}
    (h : findSplit sep s = some (pre, post)) :
    pysplitF (f + 1) sep s = pre :: pysplitF f sep post := by
  simp [pysplitF, h]

theorem pysplitF_congr {sep : Str} (hsep : sep ≠ []) :
    ∀ (n : Nat) (f1 f2 : Nat) (s : Str), s.length < f1 → s.length < f2 → s.length ≤ n →
      pysplitF f1 sep s = pysplitF f2 sep s := by
  intro n
  induction n with
  | zero =>
    intro f1 f2 s h1 h2 hn
    obtain ⟨⟩ : s = [] := by cases s with
      | nil => rfl
      | cons c t => simp at hn
    obtain ⟨f1', rfl⟩ : ∃ k, f1 = k + 1 := ⟨f1 - 1, by omega⟩
    obtain ⟨f2', rfl⟩ : ∃ k, f2 = k + 1 := ⟨f2 - 1, by omega⟩
    simp [pysplitF, findSplit]
  | succ n ih =>
    intro f1 f2 s h1 h2 hn
    obtain ⟨f1', rfl⟩ : ∃ k, f1 = k + 1 := ⟨f1 - 1, by omega⟩
    obtain ⟨f2', rfl⟩ : ∃ k, f2 = k + 1 := ⟨f2 - 1, by omega⟩
    cases hf : findSplit sep s with
    | none => rw [pysplitF_succ_none hf, pysplitF_succ_none hf]
    | some pr =>
      obtain ⟨pre, post⟩ := pr
      have hlt := findSplit_some_length hsep hf
      rw [pysplitF_succ_some hf, pysplitF_succ_some hf,
        ih f1' f2' post (by omega) (by omega) (by omega)]

theorem pysplit_eq_none {sep : Str} {s : Str} (h : findSplit sep s = none) :
    pysplit sep s = [s] := by
  simp [pysplit, pysplitF, h]

theorem pysplit_eq_some {sep : Str} (hsep : sep ≠ []) {s pre post : Str}
    (h : findSplit sep s = some (pre, post)) :
    pysplit sep s = pre :: pysplit sep post := by
  have hlt := findSplit_some_length hsep h
  simp only [pysplit]
  rw [pysplitF_succ_some h,
    pysplitF_congr hsep s.length s.length (post.length + 1) post (by omega) (by omega)
      (by omega)]

theorem splitIdx0_eq {sep : Str} (hsep : sep ≠ []) (s : Str) :
    splitIdx0 sep s =
      match findSplit sep s with
      | some (pre, _) => pre
      | none => s := by
  cases hf : findSplit sep s with
  | none => rw [splitIdx0, pysplit_eq_none hf]
  | some pr =>
    obtain ⟨pre, post⟩ := pr
    rw [splitIdx0, pysplit_eq_some hsep hf]

theorem splitIdx1_eq {sep : Str} (hsep : sep ≠ []) {s pre post : Str}
    (h : findSplit sep s = some (pre, post)) :
    splitIdx1 sep s =
      match findSplit sep post with
      | some (q, _) => q
      | none => post := by
  rw [splitIdx1, pysplit_eq_some hsep h]
  cases hf : findSplit sep post with
  | none => rw [pysplit_eq_none hf]
  | some pr =>
    obtain ⟨q, r⟩ := pr
    rw [pysplit_eq_some hsep hf]

theorem findSplit_self_append {sep : Str} (hsep : sep ≠ []) (b : Str) :
    findSplit sep (sep ++ b) = some ([], b) := by
  obtain ⟨c, s, rfl⟩ : ∃ c s, sep = c :: s := by
    cases sep with
    | nil => exact absurd rfl hsep
    | cons c s => exact ⟨c, s, rfl⟩
  rw [List.cons_append, findSplit_cons, if_pos]
  · simp
  · rw [ List.isPrefixOf_iff_prefix]
    exact List.prefix_append _ _

theorem findSplit_append_cons {sep : Str} (hsep : sep ≠ []) {a : Str} {c : Char}
    (ha : findSplit sep a = none) (hc : c ∉ sep) (b : Str) :
    findSplit sep (a ++ c :: b) =
      (findSplit sep b).map (fun pr => (a ++ c :: pr.1, pr.2)) := by
  induction a with
  | nil =>
    have hnp : ¬ sep.isPrefixOf (c :: b) = true := by
      intro hp
      rw [ List.isPrefixOf_iff_prefix] at hp
      obtain ⟨t, ht⟩ := hp
      cases sep with
      | nil => exact absurd rfl hsep
      | cons s0 st =>
        have : s0 = c := by injection ht
        exact hc (this ▸ List.mem_cons_self s0 st)
    rw [List.nil_append, findSplit_cons_of_no_match hnp]
    cases findSplit sep b with
    | none => rfl
    | some pr => rfl
  | cons x a' ih =>
    obtain ⟨hx, ha'⟩ := findSplit_none_cons ha
    have hnp : ¬ sep.isPrefixOf (x :: (a' ++ c :: b)) = true := by
      intro hp
      rw [ List.isPrefixOf_iff_prefix] at hp
      by_cases hlen : sep.length ≤ (x :: a').length
      · have hpre : sep <+: (x :: a') := by
          refine List.prefix_of_prefix_length_le hp ?_ hlen
          rw [show x :: (a' ++ c :: b) = (x :: a') ++ c :: b from rfl]
          exact List.prefix_append _ _
        rw [← List.isPrefixOf_iff_prefix] at hpre
        rw [hpre] at hx
        simp at hx
      · push_neg at hlen
        obtain ⟨t, ht⟩ := hp
        have hidx : (x :: a').length < sep.length := hlen
        have hget : sep[(x :: a').length]? = some c := by
          have h1 : (sep ++ t)[(x :: a').length]? = sep[(x :: a').length]? :=
            List.getElem?_append_left hidx
          have h2 : ((x :: a') ++ c :: b)[(x :: a').length]? = some c := by
            rw [List.getElem?_append_right (Nat.le_refl _)]
            simp
          have ht' : sep ++ t = (x :: a') ++ c :: b := ht
          rw [ht', h2] at h1
          exact h1.symm
        exact hc (List.getElem?_mem hget)
    rw [List.cons_append, findSplit_cons_of_no_match hnp, ih ha']
    cases findSplit sep b with
    | none => rfl
    | some pr => rfl

theorem findSplit_none_of_prefix_none {sep sep' : Str}
    (hpre : sep <+: sep') :
    ∀ {s : Str}, findSplit sep s = none → findSplit sep' s = none := by
  intro s
  induction s with
  | nil => intro; rfl
  | cons c rest ih =>
    intro h
    obtain ⟨hx, hrest⟩ := findSplit_none_cons h
    have hnp : ¬ sep'.isPrefixOf (c :: rest) = true := by
      intro hp
      rw [ List.isPrefixOf_iff_prefix] at hp
      have : sep <+: (c :: rest) := hpre.trans hp
      rw [← List.isPrefixOf_iff_prefix] at this
      rw [this] at hx
      simp at hx
    rw [findSplit_cons_of_no_match hnp, ih hrest]
    rfl

theorem fence_ne_nil : fence ≠ [] := by decide

theorem fenceJson_ne_nil : fenceJson ≠ [] := by decide

theorem fence_prefix_fenceJson : fence <+: fenceJson := ⟨("json").data, rfl⟩

/-! Helper lemmas: trimming. -/

theorem trimLeft_cons_ws {c : Char} (h : isWsC c = true) (s : Str) :
    trimLeft (c :: s) = trimLeft s := by
  simp [trimLeft, List.dropWhile_cons, h]

theorem trimLeft_cons_nws {c : Char} (h : isWsC c = false) (s : Str) :
    trimLeft (c :: s) = c :: s := by
  simp [trimLeft, List.dropWhile_cons, h]

theorem trimRight_append_ws {c : Char} (h : isWsC c = true) (s : Str) :
    trimRight (s ++ [c]) = trimRight s := by
  simp [trimRight, List.reverse_append, List.dropWhile_cons, h]

theorem trimRight_append_nws {c : Char} (h : isWsC c = false) (s : Str) :
    trimRight (s ++ [c]) = s ++ [c] := by
  simp [trimRight, List.reverse_append, List.dropWhile_cons, h]

theorem pystrip_cons_ws {c : Char} (h : isWsC c = true) (s : Str) :
    pystrip (c :: s) = pystrip s := by
  simp [pystrip, trimLeft_cons_ws h]

theorem pystrip_append_ws {c : Char} (h : isWsC c = true) (s : Str) :
    pystrip (s ++ [c]) = pystrip s := by
  induction s with
  | nil =>
    simp only [List.nil_append]
    simp [pystrip, trimLeft, trimRight, List.dropWhile_cons, h]
  | cons d s' ih =>
    by_cases hd : isWsC d = true
    · rw [List.cons_append, pystrip_cons_ws hd, pystrip_cons_ws hd, ih]
    · have hd' : isWsC d = false := by simp_all
      rw [List.cons_append]
      simp only [pystrip, trimLeft_cons_nws hd']
      rw [show d :: (s' ++ [c]) = (d :: s') ++ [c] from rfl, trimRight_append_ws h]

theorem pystrip_sandwich (s : Str) : pystrip (Char.ofNat 10 :: (s ++ [Char.ofNat 10])) = pystrip s := by
  rw [pystrip_cons_ws (by decide), pystrip_append_ws (by decide)]

theorem pystrip_of_ends_nws {c d : Char} (hc : isWsC c = false) (hd : isWsC d = false)
    (mid : Str) : pystrip (c :: mid ++ [d]) = c :: mid ++ [d] := by
  simp only [pystrip]
  rw [show c :: mid ++ [d] = c :: (mid ++ [d]) from rfl, trimLeft_cons_nws hc,
    show c :: (mid ++ [d]) = (c :: mid) ++ [d] from rfl, trimRight_append_nws hd]

/-! Helper lemmas: the three candidate-selection tiers. -/

theorem findSplit_eq_none_of_not_contains {sep s : Str}
    (h : containsSeq sep s = false) : findSplit sep s = none := by
  unfold containsSeq at h
  cases hf : findSplit sep s with
  | none => rfl
  | some pr => rw [hf] at h; simp at h

theorem containsSeq_true_of_findSplit {sep s : Str} {pr : Str × Str}
    (h : findSplit sep s = some pr) : containsSeq sep s = true := by
  simp [containsSeq, h]

theorem findSplit_cons_head_ne {sep : Str} {c0 c : Char} {st s : Str}
    (hsep : sep = c0 :: st) (hne : c ≠ c0) :
    findSplit sep (c :: s) = (findSplit sep s).map (fun pr => (c :: pr.1, pr.2)) := by
  apply findSplit_cons_of_no_match
  intro hp
  rw [ List.isPrefixOf_iff_prefix] at hp
  obtain ⟨t, ht⟩ := hp
  rw [hsep] at ht
  have := congrArg List.head? ht
  simp at this
  exact hne this.symm

theorem extractJsonStr_no_fence {raw : Str} (h : containsSeq fence raw = false) :
    extractJsonStr raw = pystrip raw := by
  have hf : findSplit fence raw = none := findSplit_eq_none_of_not_contains h
  have hfj : findSplit fenceJson raw = none :=
    findSplit_none_of_prefix_none fence_prefix_fenceJson hf
  rw [extractJsonStr, if_neg (by simp [containsSeq, hfj]), if_neg (by simp [containsSeq, hf])]

theorem wrapJsonFence_eq (p : Str) :
    wrapJsonFence p = fenceJson ++ '\n' :: (p ++ '\n' :: fence) := by
  have h1 : ("```json\n").data = fenceJson ++ ['\n'] := rfl
  have h2 : ("\n```").data = '\n' :: fence := rfl
  rw [wrapJsonFence, h1, h2, List.append_assoc, List.append_assoc]
  rfl

theorem wrapFence_eq (p : Str) :
    wrapFence p = fence ++ '\n' :: (p ++ '\n' :: fence) := by
  have h1 : ("```\n").data = fence ++ ['\n'] := rfl
  have h2 : ("\n```").data = '\n' :: fence := rfl
  rw [wrapFence, h1, h2, List.append_assoc, List.append_assoc]
  rfl

theorem extractJsonStr_wrapJsonFence {p : Str} (hp : containsSeq fence p = false) :
    extractJsonStr (wrapJsonFence p) = pystrip p := by
  have hfp : findSplit fence p = none := findSplit_eq_none_of_not_contains hp
  have hfjp : findSplit fenceJson p = none :=
    findSplit_none_of_prefix_none fence_prefix_fenceJson hfp
  have h1 : findSplit fenceJson ('\n' :: p) = none := by
    rw [findSplit_cons_head_ne
      (show fenceJson = Char.ofNat 96 :: ("``json").data from rfl)
      (show '\n' ≠ Char.ofNat 96 from by decide), hfjp]
    rfl
  have h2 : findSplit fence ('\n' :: p) = none := by
    rw [findSplit_cons_head_ne
      (show fence = Char.ofNat 96 :: ("``").data from rfl)
      (show '\n' ≠ Char.ofNat 96 from by decide), hfp]
    rfl
  have hopen : findSplit fenceJson (wrapJsonFence p) =
      some ([], '\n' :: (p ++ '\n' :: fence)) := by
    rw [wrapJsonFence_eq]
    exact findSplit_self_append fenceJson_ne_nil _
  have hrest : findSplit fenceJson ('\n' :: (p ++ '\n' :: fence)) = none := by
    rw [show '\n' :: (p ++ '\n' :: fence) = ('\n' :: p) ++ '\n' :: fence from rfl,
      findSplit_append_cons fenceJson_ne_nil h1 (by decide) fence,
      show findSplit fenceJson fence = none from by decide]
    rfl
  have hseg : findSplit fence ('\n' :: (p ++ '\n' :: fence)) =
      some ('\n' :: (p ++ ['\n']), []) := by
    rw [show '\n' :: (p ++ '\n' :: fence) = ('\n' :: p) ++ '\n' :: fence from rfl,
      findSplit_append_cons fence_ne_nil h2 (by decide) fence,
      show findSplit fence fence = some ([], []) from by decide]
    rfl
  rw [extractJsonStr, if_pos (containsSeq_true_of_findSplit hopen),
    splitIdx1_eq fenceJson_ne_nil hopen, hrest]
  rw [splitIdx0_eq fence_ne_nil, hseg]
  exact pystrip_sandwich p

theorem extractJsonStr_wrapFence {p : Str} (hp : containsSeq fence p = false) :
    extractJsonStr (wrapFence p) = pystrip p := by
  have hfp : findSplit fence p = none := findSplit_eq_none_of_not_contains hp
  have hfjp : findSplit fenceJson p = none :=
    findSplit_none_of_prefix_none fence_prefix_fenceJson hfp
  have h2 : findSplit fence ('\n' :: p) = none := by
    rw [findSplit_cons_head_ne
      (show fence = Char.ofNat 96 :: ("``").data from rfl)
      (show '\n' ≠ Char.ofNat 96 from by decide), hfp]
    rfl
  have hnoj : findSplit fenceJson (wrapFence p) = none := by
    rw [wrapFence_eq,
      findSplit_append_cons fenceJson_ne_nil (by decide) (by decide) (p ++ '\n' :: fence),
      findSplit_append_cons fenceJson_ne_nil hfjp (by decide) fence,
      show findSplit fenceJson fence = none from by decide]
    rfl
  have hopen : findSplit fence (wrapFence p) =
      some ([], '\n' :: (p ++ '\n' :: fence)) := by
    rw [wrapFence_eq]
    exact findSplit_self_append fence_ne_nil _
  have hseg : findSplit fence ('\n' :: (p ++ '\n' :: fence)) =
      some ('\n' :: (p ++ ['\n']), []) := by
    rw [show '\n' :: (p ++ '\n' :: fence) = ('\n' :: p) ++ '\n' :: fence from rfl,
      findSplit_append_cons fence_ne_nil h2 (by decide) fence,
      show findSplit fence fence = some ([], []) from by decide]
    rfl
  have hseg2 : findSplit fence ('\n' :: (p ++ ['\n'])) = none := by
    rw [show '\n' :: (p ++ ['\n']) = ('\n' :: p) ++ '\n' :: ([] : Str) from rfl,
      findSplit_append_cons fence_ne_nil h2 (by decide) []]
    rfl
  rw [extractJsonStr, if_neg (by simp [containsSeq, hnoj]),
    if_pos (containsSeq_true_of_findSplit hopen),
    splitIdx1_eq fence_ne_nil hopen, hseg]
  rw [splitIdx0_eq fence_ne_nil, hseg2]
  exact pystrip_sandwich p

theorem findSplit_decomp {sep : Str} :
    ∀ {s pre post : Str}, findSplit sep s = some (pre, post) →
      s = pre ++ sep ++ post := by
  intro s
  induction s with
  | nil => intro pre post h; simp [findSplit] at h
  | cons c rest ih =>
    intro pre post h
    rw [findSplit_cons] at h
    by_cases hp : sep.isPrefixOf (c :: rest)
    · rw [if_pos hp] at h
      simp only [Option.some.injEq, Prod.mk.injEq] at h
      obtain ⟨h1, h2⟩ := h
      subst h1
      subst h2
      have hp' : sep <+: (c :: rest) := by rwa [← List.isPrefixOf_iff_prefix]
      obtain ⟨t, ht⟩ := hp'
      rw [List.nil_append, ← ht, List.drop_left]
    · rw [if_neg hp] at h
      cases hf : findSplit sep rest with
      | none => rw [hf] at h; simp at h
      | some pr =>
        rw [hf] at h
        obtain ⟨pre', post'⟩ := pr
        simp only [Option.some.injEq, Prod.mk.injEq] at h
        obtain ⟨h1, h2⟩ := h
        subst h2
        rw [← h1, ih hf]
        rfl

theorem findSplit_prefix_none {sep : Str} :
    ∀ {s pre post : Str}, findSplit sep s = some (pre, post) →
      findSplit sep pre = none := by
  intro s
  induction s with
  | nil => intro pre post h; simp [findSplit] at h
  | cons c rest ih =>
    intro pre post h
    rw [findSplit_cons] at h
    by_cases hp : sep.isPrefixOf (c :: rest)
    · rw [if_pos hp] at h
      simp only [Option.some.injEq, Prod.mk.injEq] at h
      obtain ⟨h1, -⟩ := h
      subst h1
      rfl
    · rw [if_neg hp] at h
      cases hf : findSplit sep rest with
      | none => rw [hf] at h; simp at h
      | some pr =>
        rw [hf] at h
        obtain ⟨pre', post'⟩ := pr
        simp only [Option.some.injEq, Prod.mk.injEq] at h
        obtain ⟨h1, -⟩ := h
        subst h1
        have hpre' : findSplit sep pre' = none := ih hf
        have hnp : ¬ sep.isPrefixOf (c :: pre') = true := by
          intro hpp
          apply hp
          rw [ List.isPrefixOf_iff_prefix] at hpp ⊢
          refine hpp.trans ?_
          have : rest = pre' ++ sep ++ post' := findSplit_decomp hf
          exact ⟨sep ++ post', by rw [this]; simp⟩
        rw [findSplit_cons_of_no_match hnp, hpre']
        rfl

/-- Claim C3, counterexample: on the input "```json {"a":1" — an opening
json-labeled delimiter with no closing delimiter anywhere — the code's
candidate selection (everything after "```json", trimmed) differs from
the specification's three-tier rule as literally stated, under which no
fenced block exists and the candidate is the entire trimmed text. -/
theorem C3_counterexample_unclosed_fence :
    extractJsonStr (("```json \x7b\"a\":1").data) ≠
      candidateSpecC3 (("```json \x7b\"a\":1").data) := by
  decide

/-- Claim C3, amended: for every raw text, the code's candidate selection
equals the first-occurrence description `candidateAmendedC3`: presence of
the delimiter substring alone decides the tier (no closing delimiter is
required), the json tier takes the text between the first "```json" and
the next "```json" (or the end), cut at the first "```" inside it, and
the generic tier takes the text between the first and second "```" (or
the end); the result is trimmed. -/
theorem C3_amended_candidate_selection (raw : Str) :
    extractJsonStr raw = candidateAmendedC3 raw := by
  cases hj : findSplit fenceJson raw with
  | some pr =>
    obtain ⟨pre, afterOpen⟩ := pr
    rw [extractJsonStr, if_pos (containsSeq_true_of_findSplit hj),
      splitIdx1_eq fenceJson_ne_nil hj, candidateAmendedC3, hj]
    cases hseg : findSplit fenceJson afterOpen with
    | some pr2 =>
      obtain ⟨q, r⟩ := pr2
      rw [splitIdx0_eq fence_ne_nil]
      simp [hseg]
    | none =>
      rw [splitIdx0_eq fence_ne_nil]
      simp [hseg]
  | none =>
    cases hf : findSplit fence raw with
    | some pr =>
      obtain ⟨pre, afterTick⟩ := pr
      rw [extractJsonStr, if_neg (by simp [containsSeq, hj]),
        if_pos (containsSeq_true_of_findSplit hf),
        splitIdx1_eq fence_ne_nil hf, candidateAmendedC3, hj, hf]
      cases hseg : findSplit fence afterTick with
      | some pr2 =>
        obtain ⟨q, r⟩ := pr2
        rw [splitIdx0_eq fence_ne_nil]
        simp only [hseg]
        rw [findSplit_prefix_none hseg]
      | none =>
        rw [splitIdx0_eq fence_ne_nil]
    | none =>
      rw [extractJsonStr, if_neg (by simp [containsSeq, hj]),
        if_neg (by simp [containsSeq, hf]), candidateAmendedC3, hj, hf]

/-- Claim C1: an input with no fence delimiter anywhere whose trimmed text
is not parseable yields the typed parse failure (`jsonDecodeError`, the
spec's MalformedPayload, carrying the candidate) under every one of the
four schema kinds — extraction is total and never propagates a fault; and
in particular the input "I think it's a pasta dish but I'm not sure"
does so for every schema kind. -/
theorem C1_garbage_yields_malformed_payload :
    (∀ (raw : Str) (k : SchemaKind), containsSeq fence raw = false →
        pyJsonLoads (pystrip raw) = none →
        extract raw k = .error (.jsonDecodeError (pystrip raw))) ∧
    (∀ k : SchemaKind,
        extract (("I think it's a pasta dish but I'm not sure").data) k =
          .error (.jsonDecodeError
            (("I think it's a pasta dish but I'm not sure").data))) := by
  constructor
  · intro raw k h1 h2
    have hc := extractJsonStr_no_fence h1
    cases k <;> simp [extract, toolParse, hc, h2]
  · intro k
    cases k <;> rfl

/-- Witness for C1: the garbage input of the claim discharges both
hypotheses of the universal part. -/
theorem C1_witness :
    containsSeq fence (("I think it's a pasta dish but I'm not sure").data) = false ∧
    pyJsonLoads (pystrip (("I think it's a pasta dish but I'm not sure").data)) = none ∧
    extract (("I think it's a pasta dish but I'm not sure").data) .dishAnalysis =
      .error (.jsonDecodeError
        (pystrip (("I think it's a pasta dish but I'm not sure").data))) :=
  ⟨rfl, rfl,
   C1_garbage_yields_malformed_payload.1
     (("I think it's a pasta dish but I'm not sure").data) .dishAnalysis rfl rfl⟩

/-- Claim C4, counterexample: the payload `{"a": "```5```"}` is
well-formed JSON (it parses to an object), yet its unfenced presentation
extracts successfully — the interior backtick run is taken for a fence
and the text between the backtick runs, `5`, parses — while its
json-fenced presentation fails with a parse error; the three
presentations do not agree, so fence-tier invariance fails for it. -/
theorem C4_counterexample_interior_fence :
    pyJsonLoads (("\x7b\"a\": \"```5```\"\x7d").data) =
      some (.obj [(("a").data, .str ("```5```").data)]) ∧
    extract (("\x7b\"a\": \"```5```\"\x7d").data) .nutritionEstimate =
      .ok (.nutrition (.num 5)) ∧
    extract (wrapJsonFence (("\x7b\"a\": \"```5```\"\x7d").data)) .nutritionEstimate =
      .error (.jsonDecodeError (("\x7b\"a\": \"").data)) :=
  ⟨rfl, rfl, rfl⟩

/-- Claim C4, amended: for payloads containing no occurrence of the fence
delimiter "```", extraction of the unfenced, json-fenced and
generically-fenced presentations of the same payload agree for every
schema kind (in particular they yield the same extracted entity whenever
one succeeds). -/
theorem C4_amended_fence_invariance (k : SchemaKind) (p : Str)
    (hp : containsSeq fence p = false) :
    extract (wrapJsonFence p) k = extract p k ∧
    extract (wrapFence p) k = extract p k := by
  have h1 : extractJsonStr (wrapJsonFence p) = extractJsonStr p := by
    rw [extractJsonStr_wrapJsonFence hp, extractJsonStr_no_fence hp]
  have h2 : extractJsonStr (wrapFence p) = extractJsonStr p := by
    rw [extractJsonStr_wrapFence hp, extractJsonStr_no_fence hp]
  constructor <;> simp [extract, toolParse, h1, h2]

/-- Witness for C4: the empty-object payload has no fence delimiter, and
the theorem applied to it equates all three presentations. -/
theorem C4_witness :
    containsSeq fence (("\x7b\x7d").data) = false ∧
    (extract (wrapJsonFence (("\x7b\x7d").data)) .dishAnalysis =
        extract (("\x7b\x7d").data) .dishAnalysis ∧
     extract (wrapFence (("\x7b\x7d").data)) .dishAnalysis =
        extract (("\x7b\x7d").data) .dishAnalysis) :=
  ⟨rfl, C4_amended_fence_invariance .dishAnalysis (("\x7b\x7d").data) rfl⟩

/-- Claim C5: `get_ingredient_substitutes` never succeeds for any
ingredient and context — the attribute access `agent.get_substitutes`
(src/tools.py line 23) raises `AttributeError` because `FoodAnalyzerAgent`
defines no such method, so the call fails before any extraction; in
particular it fails on the module's own self-test input
("huevo", "vegano") from src/tools.py lines 119. -/
theorem C5_get_substitutes_always_fails :
    ∀ ingredient context : Str,
      get_ingredient_substitutes ingredient context =
        .error (.attributeError ("get_substitutes").data) := by
  intro ingredient context
  rfl

/-- Claim C6: the spec's example input — prose, then a json-labeled fence
holding the Ceviche payload — extracts under the DishAnalysis schema to
the record with `dish_name = "Ceviche"` and
`ingredients = ["fish", "lime"]` (and the stated steps and facts). -/
theorem C6_ceviche_example :
    extract (("Here you go:\n```json\n\x7b\"dish_name\":\"Ceviche\",\"ingredients\":[\"fish\",\"lime\"],\"recipe_steps\":[\"cut\",\"marinate\"],\"fun_facts\":[\"origin: Peru\"]\x7d\n```").data)
        .dishAnalysis =
      .ok (.dish (.str ("Ceviche").data)
        (.arr [.str ("fish").data, .str ("lime").data])
        (.arr [.str ("cut").data, .str ("marinate").data])
        (.arr [.str ("origin: Peru").data])) := rfl

/-- Claim C2, counterexample: the payload `{}` parses successfully and
omits `serving_size` (and every other required field of the
NutritionEstimate shape), yet extraction under the NutritionEstimate
schema returns the parsed payload as a success — the nutrition pipeline
(src/agent.py lines 271, 283) performs no field validation at all, so no
SchemaMismatch is ever produced for that schema. -/
theorem C2_counterexample_nutrition_no_validation :
    extract (("\x7b\x7d").data) .nutritionEstimate = .ok (.nutrition (.obj [])) := rfl

/-- Claim C2, amended: field validation exists only where the source
dereferences fields.  For the DishAnalysis schema, a payload that parses
to an object missing a required field yields the key error naming the
first missing field in access order (`dish_name`, `ingredients`,
`recipe_steps`, `fun_facts`) — the spec's SchemaMismatch, never
MalformedPayload; for the NutritionEstimate and DishComparison schemas
the parsed payload is returned wholesale with no field check. -/
theorem C2_amended_missing_field :
    (∀ (raw : Str) (m : List (Str × Json)) (f : Str),
        pyJsonLoads (extractJsonStr raw) = some (.obj m) →
        firstMissingDish m = some f →
        extract raw .dishAnalysis = .error (.keyError f)) ∧
    (∀ (raw : Str) (j : Json),
        pyJsonLoads (extractJsonStr raw) = some j →
        extract raw .nutritionEstimate = .ok (.nutrition j) ∧
        extract raw .dishComparison = .ok (.comparison j)) := by
  constructor
  · intro raw m f hparse hmiss
    simp only [extract, toolParse, hparse]
    cases h1 : pyLookup m keyDishName with
    | none =>
      simp only [firstMissingDish, requiredDishKeys, List.find?, h1, Option.isNone_none,
        Option.some.injEq] at hmiss
      subst hmiss
      simp [pyGetItem, h1]
    | some v1 =>
      cases h2 : pyLookup m keyIngredients with
      | none =>
        simp only [firstMissingDish, requiredDishKeys, List.find?, h1, h2, Option.isNone_none,
          Option.isNone_some, Option.some.injEq] at hmiss
        subst hmiss
        simp [pyGetItem, h1, h2]
      | some v2 =>
        cases h3 : pyLookup m keyRecipeSteps with
        | none =>
          simp only [firstMissingDish, requiredDishKeys, List.find?, h1, h2, h3,
            Option.isNone_none, Option.isNone_some, Option.some.injEq] at hmiss
          subst hmiss
          simp [pyGetItem, h1, h2, h3]
        | some v3 =>
          cases h4 : pyLookup m keyFunFacts with
          | none =>
            simp only [firstMissingDish, requiredDishKeys, List.find?, h1, h2, h3, h4,
              Option.isNone_none, Option.isNone_some, Option.some.injEq] at hmiss
            subst hmiss
            simp [pyGetItem, h1, h2, h3, h4]
          | some v4 =>
            simp [firstMissingDish, requiredDishKeys, List.find?, h1, h2, h3, h4] at hmiss
  · intro raw j hparse
    constructor <;> simp [extract, toolParse, hparse]

/-- Witness for C2: the empty-object payload parses, misses `dish_name`
first, and the theorem yields the key error naming it. -/
theorem C2_witness :
    pyJsonLoads (extractJsonStr (("\x7b\x7d").data)) = some (.obj []) ∧
    firstMissingDish [] = some keyDishName ∧
    extract (("\x7b\x7d").data) .dishAnalysis = .error (.keyError keyDishName) :=
  ⟨rfl, rfl, C2_amended_missing_field.1 (("\x7b\x7d").data) [] keyDishName rfl rfl⟩

/-! Helper lemmas: digits, literals, string bodies. -/

theorem sizeJ_pos : ∀ j : Json, 1 ≤ sizeJ j := by
  intro j
  cases j <;> simp [sizeJ]

theorem dropLit_self_append (lit r : Str) : dropLit lit (lit ++ r) = some r := by
  rw [dropLit, if_pos, List.drop_left]
  rw [ List.isPrefixOf_iff_prefix]
  exact List.prefix_append _ _

theorem digitChar_toNat {d : Nat} (h : d < 10) : (digitChar d).toNat = 48 + d := by
  interval_cases d <;> decide

theorem isDigitC_digitChar {d : Nat} (h : d < 10) : isDigitC (digitChar d) = true := by
  interval_cases d <;> decide

theorem isDigitC_facts {c : Char} (h : isDigitC c = true) :
    isWsC c = false ∧ c ≠ '"' ∧ c ≠ '\x7b' ∧ c ≠ '[' ∧ c ≠ 't' ∧ c ≠ 'f' ∧
    c ≠ 'n' ∧ c ≠ '-' ∧ c ≠ '\x7d' ∧ c ≠ ']' ∧ c ≠ ',' := by
  simp only [isDigitC, Bool.and_eq_true, decide_eq_true_eq] at h
  refine ⟨?_, ?_, ?_, ?_, ?_, ?_, ?_, ?_, ?_, ?_, ?_⟩
  · simp only [isWsC, Bool.or_eq_false_iff, decide_eq_false_iff_not]
    omega
  all_goals intro hc; subst hc; simp_all

theorem digitsValNat_append_digit (a : Str) (c : Char) :
    digitsValNat (a ++ [c]) = 10 * digitsValNat a + (c.toNat - 48) := by
  simp [digitsValNat, List.foldl_append]

theorem natDigitsF_val : ∀ (fuel n : Nat), n ≤ fuel →
    digitsValNat (natDigitsF fuel n) = n := by
  intro fuel
  induction fuel with
  | zero =>
    intro n hn
    obtain rfl : n = 0 := by omega
    rfl
  | succ fuel ih =>
    intro n hn
    by_cases h0 : n = 0
    · subst h0; rfl
    · rw [natDigitsF, if_neg h0, digitsValNat_append_digit,
        ih (n / 10) (by omega), digitChar_toNat (Nat.mod_lt n (by omega))]
      omega

theorem digitsValNat_natDigits (n : Nat) : digitsValNat (natDigits n) = n := by
  by_cases h0 : n = 0
  · subst h0; rfl
  · rw [natDigits, if_neg h0, natDigitsF_val (n + 1) n (by omega)]

theorem natDigitsF_all_digits : ∀ (fuel n : Nat) (c : Char),
    c ∈ natDigitsF fuel n → isDigitC c = true := by
  intro fuel
  induction fuel with
  | zero => intro n c hc; simp [natDigitsF] at hc
  | succ fuel ih =>
    intro n c hc
    by_cases h0 : n = 0
    · subst h0; simp [natDigitsF] at hc
    · rw [natDigitsF, if_neg h0] at hc
      rcases List.mem_append.mp hc with hmem | hmem
      · exact ih _ _ hmem
      · rw [List.mem_singleton] at hmem
        subst hmem
        exact isDigitC_digitChar (Nat.mod_lt n (by omega))

theorem natDigits_all_digits {n : Nat} {c : Char} (hc : c ∈ natDigits n) :
    isDigitC c = true := by
  by_cases h0 : n = 0
  · subst h0; simp [natDigits] at hc; subst hc; decide
  · rw [natDigits, if_neg h0] at hc
    exact natDigitsF_all_digits _ _ _ hc

theorem natDigits_ne_nil (n : Nat) : natDigits n ≠ [] := by
  by_cases h0 : n = 0
  · subst h0; simp [natDigits]
  · rw [natDigits, if_neg h0, natDigitsF, if_neg h0]
    simp

theorem natDigits_shape (n : Nat) :
    ∃ c t, natDigits n = c :: t ∧ isDigitC c = true := by
  cases hd : natDigits n with
  | nil => exact absurd hd (natDigits_ne_nil n)
  | cons c t =>
    exact ⟨c, t, rfl, natDigits_all_digits (hd ▸ List.mem_cons_self c t)⟩

theorem takeWhile_append_all {p : Char → Bool} :
    ∀ {a : Str} (b : Str), (∀ c ∈ a, p c = true) →
      (a ++ b).takeWhile p = a ++ b.takeWhile p := by
  intro a
  induction a with
  | nil => intro b _; rfl
  | cons c a' ih =>
    intro b ha
    have hc : p c = true := ha c (List.mem_cons_self c a')
    rw [List.cons_append, List.takeWhile_cons_of_pos hc,
      ih b (fun d hd => ha d (List.mem_cons_of_mem c hd))]
    rfl

theorem dropWhile_append_all {p : Char → Bool} :
    ∀ {a : Str} (b : Str), (∀ c ∈ a, p c = true) →
      (a ++ b).dropWhile p = b.dropWhile p := by
  intro a
  induction a with
  | nil => intro b _; rfl
  | cons c a' ih =>
    intro b ha
    have hc : p c = true := ha c (List.mem_cons_self c a')
    rw [List.cons_append, List.dropWhile_cons_of_pos hc,
      ih b (fun d hd => ha d (List.mem_cons_of_mem c hd))]

theorem delimOkB_head_not_digit {rest : Str} (h : delimOkB rest = true) :
    rest.takeWhile isDigitC = [] ∧ rest.dropWhile isDigitC = rest := by
  cases rest with
  | nil => exact ⟨rfl, rfl⟩
  | cons c r =>
    simp only [delimOkB, Bool.or_eq_true, decide_eq_true_eq] at h
    have hc : isDigitC c = false := by
      rcases h with (rfl | rfl) | rfl <;> decide
    exact ⟨List.takeWhile_cons_of_neg (by simp [hc]),
           List.dropWhile_cons_of_neg (by simp [hc])⟩

theorem parseDigits_append {a rest : Str} (ha : ∀ c ∈ a, isDigitC c = true)
    (hne : a ≠ []) (hrest : delimOkB rest = true) :
    parseDigits (a ++ rest) = some (digitsValNat a, rest) := by
  obtain ⟨ht, hd⟩ := delimOkB_head_not_digit hrest
  rw [parseDigits]
  simp only [takeWhile_append_all rest ha, dropWhile_append_all rest ha, ht, hd,
    List.append_nil]
  rw [if_neg (by simp [hne])]

theorem parseStrAux_cons_eq (c : Char) (rest : Str) :
    parseStrAux (c :: rest) =
      if c = '"' then some ([], rest)
      else if c = '\\' then
        match rest with
        | [] => none
        | e :: rest2 =>
          match unescapeC e with
          | some c2 => (parseStrAux rest2).map (fun p => (c2 :: p.1, p.2))
          | none => none
      else (parseStrAux rest).map (fun p => (c :: p.1, p.2)) := by
  rw [parseStrAux.eq_def]
  rfl

theorem parseStrAux_escStr : ∀ (s rest : Str),
    parseStrAux (escStr s ++ '"' :: rest) = some (s, rest) := by
  intro s
  induction s with
  | nil =>
    intro rest
    simp only [escStr, List.nil_append]
    rw [parseStrAux_cons_eq, if_pos rfl]
  | cons c t ih =>
    intro rest
    by_cases h1 : c = '"'
    · subst h1
      have he : escStr ('"' :: t) = '\\' :: '"' :: escStr t := by
        simp [escStr, escChar]
      simp +decide [he, parseStrAux_cons_eq, unescapeC, ih]
    · by_cases h2 : c = '\\'
      · subst h2
        have he : escStr ('\\' :: t) = '\\' :: '\\' :: escStr t := by
          simp +decide [escStr, escChar]
        simp +decide [he, parseStrAux_cons_eq, unescapeC, ih]
      · have he : escStr (c :: t) = c :: escStr t := by
          simp [escStr, escChar, h1, h2]
        simp [he, parseStrAux_cons_eq, h1, h2, ih]

theorem serValue_shape : ∀ j : Json, ∃ c t, serValue j = c :: t ∧
    isWsC c = false ∧ c ≠ '\x7d' ∧ c ≠ ']' := by
  intro j
  cases j with
  | null => exact ⟨'n', ("ull").data, rfl, by decide, by decide, by decide⟩
  | bool b =>
    cases b with
    | true => exact ⟨'t', ("rue").data, rfl, by decide, by decide, by decide⟩
    | false => exact ⟨'f', ("alse").data, rfl, by decide, by decide, by decide⟩
  | num n =>
    by_cases hn : n < 0
    · exact ⟨'-', natDigits n.natAbs, by simp [serValue, serInt, hn], by decide,
        by decide, by decide⟩
    · obtain ⟨c, t, hct, hd⟩ := natDigits_shape n.toNat
      obtain ⟨hw, -, -, -, -, -, -, -, h7d, h7e, -⟩ := isDigitC_facts hd
      exact ⟨c, t, by simp [serValue, serInt, hn, hct], hw, h7d, h7e⟩
  | str s => exact ⟨'"', escStr s ++ ['"'], by simp [serValue, serStr], by decide,
      by decide, by decide⟩
  | arr l =>
    cases l with
    | nil => exact ⟨'[', [']'], rfl, by decide, by decide, by decide⟩
    | cons x xs =>
      exact ⟨'[', serValue x ++ serElemsTail xs ++ [']'], by simp [serValue], by decide,
        by decide, by decide⟩
  | obj l =>
    cases l with
    | nil => exact ⟨'\x7b', ['\x7d'], rfl, by decide, by decide, by decide⟩
    | cons m ms =>
      obtain ⟨k, v⟩ := m
      exact ⟨'\x7b', serStr k ++ ':' :: serValue v ++ serMembersTail ms ++ ['\x7d'],
        by simp [serValue], by decide, by decide, by decide⟩

theorem delimOkB_membersTail (ms : List (Str × Json)) (rest : Str) :
    delimOkB (serMembersTail ms ++ '\x7d' :: rest) = true := by
  cases ms with
  | nil => rfl
  | cons m ms' =>
    obtain ⟨k, v⟩ := m
    simp only [serMembersTail, List.cons_append]
    rfl

theorem delimOkB_elemsTail (xs : List Json) (rest : Str) :
    delimOkB (serElemsTail xs ++ ']' :: rest) = true := by
  cases xs with
  | nil => rfl
  | cons y ys =>
    simp only [serElemsTail, List.cons_append]
    rfl

theorem parseValue_succ (fuel : Nat) (s : Str) :
    parseValue (fuel + 1) s =
      match trimLeft s with
      | [] => none
      | c :: rest =>
        if c = '"' then (parseStrAux rest).map (fun p => (Json.str p.1, p.2))
        else if c = '\x7b' then
          match trimLeft rest with
          | [] => none
          | c2 :: rest2 =>
            if c2 = '\x7d' then some (Json.obj [], rest2)
            else (parseMembers fuel (c2 :: rest2)).map (fun p => (Json.obj p.1, p.2))
        else if c = '[' then
          match trimLeft rest with
          | [] => none
          | c2 :: rest2 =>
            if c2 = ']' then some (Json.arr [], rest2)
            else (parseElems fuel (c2 :: rest2)).map (fun p => (Json.arr p.1, p.2))
        else if c = 't' then (dropLit ("rue").data rest).map (fun r => (Json.bool true, r))
        else if c = 'f' then (dropLit ("alse").data rest).map (fun r => (Json.bool false, r))
        else if c = 'n' then (dropLit ("ull").data rest).map (fun r => (Json.null, r))
        else if c = '-' then (parseDigits rest).map (fun p => (Json.num (-(p.1 : Int)), p.2))
        else if isDigitC c then
          (parseDigits (c :: rest)).map (fun p => (Json.num (p.1 : Int), p.2))
        else none := by
  rw [parseValue.eq_def]

theorem parseMembers_succ (fuel : Nat) (s : Str) :
    parseMembers (fuel + 1) s =
      match trimLeft s with
      | [] => none
      | c :: rest =>
        if c = '"' then
          match parseStrAux rest with
          | none => none
          | some (key, r1) =>
            match trimLeft r1 with
            | [] => none
            | c2 :: r2 =>
              if c2 = ':' then
                match parseValue fuel r2 with
                | none => none
                | some (v, r3) =>
                  match trimLeft r3 with
                  | [] => none
                  | c3 :: r4 =>
                    if c3 = ',' then
                      (parseMembers fuel r4).map (fun p => ((key, v) :: p.1, p.2))
                    else if c3 = '\x7d' then some ([(key, v)], r4)
                    else none
              else none
        else none := by
  rw [parseMembers.eq_def]

theorem parseElems_succ (fuel : Nat) (s : Str) :
    parseElems (fuel + 1) s =
      match parseValue fuel s with
      | none => none
      | some (v, r1) =>
        match trimLeft r1 with
        | [] => none
        | c :: r2 =>
          if c = ',' then (parseElems fuel r2).map (fun p => (v :: p.1, p.2))
          else if c = ']' then some ([v], r2)
          else none := by
  rw [parseElems.eq_def]

theorem trimLeft_cons_if (c : Char) (s : Str) :
    trimLeft (c :: s) = if isWsC c then trimLeft s else c :: s := by
  by_cases h : isWsC c <;> simp [trimLeft, List.dropWhile_cons, h]

theorem parse_serValue : ∀ fuel : Nat,
    (∀ (j : Json) (rest : Str), sizeJ j ≤ fuel → delimOkB rest = true →
      parseValue fuel (serValue j ++ rest) = some (j, rest)) ∧
    (∀ (k : Str) (v : Json) (ms : List (Str × Json)) (rest : Str),
      1 + sizeJ v + sizeMembers ms ≤ fuel →
      parseMembers fuel
          (serStr k ++ ':' :: (serValue v ++ (serMembersTail ms ++ '\x7d' :: rest))) =
        some ((k, v) :: ms, rest)) ∧
    (∀ (x : Json) (xs : List Json) (rest : Str),
      1 + sizeJ x + sizeElems xs ≤ fuel →
      parseElems fuel (serValue x ++ (serElemsTail xs ++ ']' :: rest)) =
        some (x :: xs, rest)) := by
  intro fuel
  induction fuel with
  | zero =>
    refine ⟨?_, ?_, ?_⟩
    · intro j rest hsize _
      exact absurd hsize (by have := sizeJ_pos j; omega)
    · intro k v ms rest hsize
      exact absurd hsize (by omega)
    · intro x xs rest hsize
      exact absurd hsize (by omega)
  | succ fuel ih =>
    obtain ⟨P_ih, Q_ih, R_ih⟩ := ih
    refine ⟨?_, ?_, ?_⟩
    · intro j rest hsize hdelim
      cases j with
      | null =>
        rw [show serValue Json.null ++ rest = 'n' :: (("ull").data ++ rest) from rfl,
          parseValue_succ]
        simp +decide [trimLeft_cons_if]
        exact dropLit_self_append (("ull").data) rest
      | bool b =>
        cases b with
        | true =>
          rw [show serValue (Json.bool true) ++ rest =
              't' :: (("rue").data ++ rest) from rfl, parseValue_succ]
          simp +decide [trimLeft_cons_if]
          exact dropLit_self_append (("rue").data) rest
        | false =>
          rw [show serValue (Json.bool false) ++ rest =
              'f' :: (("alse").data ++ rest) from rfl, parseValue_succ]
          simp +decide [trimLeft_cons_if]
          exact dropLit_self_append (("alse").data) rest
      | num n =>
        by_cases hn : n < 0
        · have hser : serValue (Json.num n) = '-' :: natDigits n.natAbs := by
            simp [serValue, serInt, hn]
          rw [hser, List.cons_append, parseValue_succ]
          have hpd : parseDigits (natDigits n.natAbs ++ rest) =
              some (digitsValNat (natDigits n.natAbs), rest) :=
            parseDigits_append (fun c hc => natDigits_all_digits hc)
              (natDigits_ne_nil _) hdelim
          simp +decide [trimLeft_cons_if, hpd, digitsValNat_natDigits, abs_of_neg hn]
        · obtain ⟨c, t, hct, hd⟩ := natDigits_shape n.toNat
          obtain ⟨hw, hq, hb, hk, ht, hf, hnn, hm, -, -, -⟩ := isDigitC_facts hd
          have hn' : (0 : Int) ≤ n := by omega
          have hser : serValue (Json.num n) = c :: t := by
            simp [serValue, serInt, hn, hct]
          rw [hser, List.cons_append, parseValue_succ]
          have hpd : parseDigits (c :: (t ++ rest)) =
              some (digitsValNat (natDigits n.toNat), rest) := by
            rw [show c :: (t ++ rest) = (c :: t) ++ rest from rfl, ← hct]
            exact parseDigits_append (fun d hdm => natDigits_all_digits hdm)
              (natDigits_ne_nil _) hdelim
          simp [trimLeft_cons_if, hw, hq, hb, hk, ht, hf, hnn, hm, hd, hpd,
            digitsValNat_natDigits, Int.toNat_of_nonneg hn']
      | str s =>
        rw [show serValue (Json.str s) ++ rest =
            '"' :: ((escStr s ++ ['"']) ++ rest) from rfl, parseValue_succ]
        simp +decide [trimLeft_cons_if, List.append_assoc, parseStrAux_escStr]
      | arr l =>
        cases l with
        | nil =>
          rw [show serValue (Json.arr []) ++ rest = '[' :: (']' :: rest) from rfl,
            parseValue_succ]
          simp +decide [trimLeft_cons_if]
        | cons x xs =>
          obtain ⟨cx, tx, hcx, hwx, -, hbx⟩ := serValue_shape x
          have hsplit : serValue (Json.arr (x :: xs)) ++ rest =
              '[' :: (cx :: (tx ++ (serElemsTail xs ++ ']' :: rest))) := by
            simp [serValue, hcx, List.append_assoc]
          have harg : cx :: (tx ++ (serElemsTail xs ++ ']' :: rest)) =
              serValue x ++ (serElemsTail xs ++ ']' :: rest) := by
            rw [hcx]; rfl
          have hsz : 1 + sizeJ x + sizeElems xs ≤ fuel := by
            simp only [sizeJ, sizeElems] at hsize; omega
          rw [hsplit, parseValue_succ]
          simp +decide [trimLeft_cons_if, hwx, hbx]
          rw [harg, R_ih x xs rest hsz]
      | obj l =>
        cases l with
        | nil =>
          rw [show serValue (Json.obj []) ++ rest = '\x7b' :: ('\x7d' :: rest) from rfl,
            parseValue_succ]
          simp +decide [trimLeft_cons_if]
        | cons m ms =>
          obtain ⟨k, v⟩ := m
          have hsplit : serValue (Json.obj ((k, v) :: ms)) ++ rest =
              '\x7b' :: ('"' :: ((escStr k ++ ['"']) ++
                (':' :: (serValue v ++ (serMembersTail ms ++ '\x7d' :: rest))))) := by
            simp [serValue, serStr, List.append_assoc]
          have harg : '"' :: ((escStr k ++ ['"']) ++
              (':' :: (serValue v ++ (serMembersTail ms ++ '\x7d' :: rest)))) =
              serStr k ++ ':' :: (serValue v ++ (serMembersTail ms ++ '\x7d' :: rest)) := by
            simp [serStr, List.append_assoc]
          have hsz : 1 + sizeJ v + sizeMembers ms ≤ fuel := by
            simp only [sizeJ, sizeMembers] at hsize; omega
          rw [hsplit, parseValue_succ]
          show Option.map (fun p => (Json.obj p.1, p.2))
              (parseMembers fuel ('"' :: ((escStr k ++ ['"']) ++
                (':' :: (serValue v ++ (serMembersTail ms ++ '\x7d' :: rest)))))) =
            some (Json.obj ((k, v) :: ms), rest)
          rw [harg, Q_ih k v ms rest hsz]
          rfl
    · intro k v ms rest hsize
      rw [show serStr k ++ ':' :: (serValue v ++ (serMembersTail ms ++ '\x7d' :: rest)) =
          '"' :: ((escStr k ++ ['"']) ++
            (':' :: (serValue v ++ (serMembersTail ms ++ '\x7d' :: rest)))) from by
          simp [serStr, List.append_assoc],
        parseMembers_succ]
      cases ms with
      | nil =>
        have hv : parseValue fuel (serValue v ++ ('\x7d' :: rest)) =
            some (v, '\x7d' :: rest) :=
          P_ih v ('\x7d' :: rest) (by omega) rfl
        rw [show serMembersTail [] ++ '\x7d' :: rest = '\x7d' :: rest from rfl]
        simp +decide [trimLeft_cons_if, List.append_assoc, parseStrAux_escStr, hv]
      | cons m2 ms' =>
        obtain ⟨k2, v2⟩ := m2
        have htail : serMembersTail ((k2, v2) :: ms') ++ '\x7d' :: rest =
            ',' :: (serStr k2 ++ ':' ::
              (serValue v2 ++ (serMembersTail ms' ++ '\x7d' :: rest))) := by
          simp [serMembersTail, List.append_assoc]
        have hv : parseValue fuel (serValue v ++ (',' :: (serStr k2 ++ ':' ::
            (serValue v2 ++ (serMembersTail ms' ++ '\x7d' :: rest))))) =
            some (v, ',' :: (serStr k2 ++ ':' ::
              (serValue v2 ++ (serMembersTail ms' ++ '\x7d' :: rest)))) :=
          P_ih v _ (by omega) rfl
        have hsz2 : 1 + sizeJ v2 + sizeMembers ms' ≤ fuel := by
          have := sizeJ_pos v
          simp only [sizeMembers] at hsize
          omega
        rw [htail]
        simp +decide [trimLeft_cons_if, List.append_assoc, parseStrAux_escStr, hv,
          Q_ih k2 v2 ms' rest hsz2]
    · intro x xs rest hsize
      rw [parseElems_succ]
      have hx : parseValue fuel (serValue x ++ (serElemsTail xs ++ ']' :: rest)) =
          some (x, serElemsTail xs ++ ']' :: rest) :=
        P_ih x _ (by omega) (delimOkB_elemsTail xs rest)
      cases xs with
      | nil =>
        rw [show serElemsTail [] ++ ']' :: rest = ']' :: rest from rfl] at hx ⊢
        simp +decide [hx, trimLeft_cons_if]
      | cons y ys =>
        have htail : serElemsTail (y :: ys) ++ ']' :: rest =
            ',' :: (serValue y ++ (serElemsTail ys ++ ']' :: rest)) := by
          simp [serElemsTail, List.append_assoc]
        have hsz2 : 1 + sizeJ y + sizeElems ys ≤ fuel := by
          have := sizeJ_pos x
          simp only [sizeElems] at hsize
          omega
        rw [htail] at hx ⊢
        simp +decide [hx, trimLeft_cons_if, R_ih y ys rest hsz2]

theorem sizeJ_le_serLength : ∀ n : Nat,
    (∀ j : Json, sizeJ j ≤ n → sizeJ j ≤ (serValue j).length) ∧
    (∀ ms : List (Str × Json), sizeMembers ms ≤ n →
      sizeMembers ms ≤ (serMembersTail ms).length) ∧
    (∀ l : List Json, sizeElems l ≤ n → sizeElems l ≤ (serElemsTail l).length) := by
  intro n
  induction n with
  | zero =>
    refine ⟨?_, ?_, ?_⟩
    · intro j hj
      exact absurd hj (by have := sizeJ_pos j; omega)
    · intro ms hms
      cases ms with
      | nil => simp [sizeMembers]
      | cons m ms' => obtain ⟨k, v⟩ := m; simp [sizeMembers] at hms
    · intro l hl
      cases l with
      | nil => simp [sizeElems]
      | cons x xs => simp [sizeElems] at hl
  | succ n ih =>
    obtain ⟨ihJ, ihM, ihE⟩ := ih
    refine ⟨?_, ?_, ?_⟩
    · intro j hj
      cases j with
      | null => simp [sizeJ, serValue]
      | bool b => cases b <;> simp [sizeJ, serValue]
      | num nn =>
        obtain ⟨c, t, hct, -, -, -⟩ := serValue_shape (Json.num nn)
        rw [hct]
        simp only [sizeJ, List.length_cons]
        omega
      | str s => simp [sizeJ, serValue, serStr]
      | arr l =>
        cases l with
        | nil => simp [sizeJ, sizeElems, serValue]
        | cons x xs =>
          have h1 : sizeJ x ≤ n := by simp [sizeJ, sizeElems] at hj; omega
          have h2 : sizeElems xs ≤ n := by simp [sizeJ, sizeElems] at hj; omega
          have := ihJ x h1
          have := ihE xs h2
          simp [sizeJ, sizeElems, serValue, List.length_append]
          omega
      | obj l =>
        cases l with
        | nil => simp [sizeJ, sizeMembers, serValue]
        | cons m ms =>
          obtain ⟨k, v⟩ := m
          have h1 : sizeJ v ≤ n := by simp [sizeJ, sizeMembers] at hj; omega
          have h2 : sizeMembers ms ≤ n := by simp [sizeJ, sizeMembers] at hj; omega
          have := ihJ v h1
          have := ihM ms h2
          simp [sizeJ, sizeMembers, serValue, serStr, List.length_append]
          omega
    · intro ms hms
      cases ms with
      | nil => simp [sizeMembers]
      | cons m ms' =>
        obtain ⟨k, v⟩ := m
        have h1 : sizeJ v ≤ n := by simp [sizeMembers] at hms; omega
        have h2 : sizeMembers ms' ≤ n := by simp [sizeMembers] at hms; omega
        have := ihJ v h1
        have := ihM ms' h2
        simp [sizeMembers, serMembersTail, serStr, List.length_append]
        omega
    · intro l hl
      cases l with
      | nil => simp [sizeElems]
      | cons x xs =>
        have h1 : sizeJ x ≤ n := by simp [sizeElems] at hl; omega
        have h2 : sizeElems xs ≤ n := by simp [sizeElems] at hl; omega
        have := ihJ x h1
        have := ihE xs h2
        simp [sizeElems, serElemsTail, List.length_append]
        omega

theorem pyJsonLoads_serValue (j : Json) : pyJsonLoads (serValue j) = some j := by
  have hsz : sizeJ j ≤ (serValue j).length :=
    (sizeJ_le_serLength (sizeJ j)).1 j (Nat.le_refl _)
  have hp : parseValue ((serValue j).length + 1) (serValue j ++ []) = some (j, []) :=
    (parse_serValue ((serValue j).length + 1)).1 j [] (by omega) rfl
  rw [List.append_nil] at hp
  rw [pyJsonLoads, hp]
  rfl

theorem serValue_obj_cons_shape (k : Str) (v : Json) (ms : List (Str × Json)) :
    ∃ mid, serValue (Json.obj ((k, v) :: ms)) = '\x7b' :: (mid ++ ['\x7d']) := by
  refine ⟨serStr k ++ ':' :: serValue v ++ serMembersTail ms, ?_⟩
  simp [serValue, List.append_assoc]

theorem pystrip_serialized_obj (k : Str) (v : Json) (ms : List (Str × Json)) :
    pystrip (serValue (Json.obj ((k, v) :: ms))) = serValue (Json.obj ((k, v) :: ms)) := by
  obtain ⟨mid, hmid⟩ := serValue_obj_cons_shape k v ms
  rw [hmid]
  exact pystrip_of_ends_nws (by decide) (by decide) mid

/-- Claim C7, counterexample: the DishAnalysis entity whose dish name is
the three-character string "```" serializes to a well-formed payload, but
extraction of that payload under its own schema kind is a parse failure,
not the original entity — the serialized backticks are taken for a fence.
Extraction is therefore not a left inverse of payload construction on
every entity. -/
theorem C7_counterexample_backtick_entity :
    extract (serializeEntity (Entity.dishAnalysis ("```").data [] [] []))
        (kindOf (Entity.dishAnalysis ("```").data [] [] [])) =
      .error (.jsonDecodeError
        (("\",\"ingredients\":[],\"recipe_steps\":[],\"fun_facts\":[]\x7d").data)) ∧
    (Except.error (PyErr.jsonDecodeError
        (("\",\"ingredients\":[],\"recipe_steps\":[],\"fun_facts\":[]\x7d").data)) ≠
      (Except.ok (recordOf (Entity.dishAnalysis ("```").data [] [] [])) :
        Except PyErr ShapedRecord)) :=
  ⟨rfl, by simp⟩

/-- Claim C7, amended: for every entity whose serialized payload contains
no occurrence of the fence delimiter "```", extracting the serialized
payload under the entity's schema kind reproduces the entity's record
exactly, field for field. -/
theorem C7_amended_roundtrip (e : Entity)
    (h : containsSeq fence (serializeEntity e) = false) :
    extract (serializeEntity e) (kindOf e) = .ok (recordOf e) := by
  have h1 : extractJsonStr (serializeEntity e) = pystrip (serializeEntity e) :=
    extractJsonStr_no_fence h
  have h2 : pystrip (serializeEntity e) = serializeEntity e := by
    cases e with
    | dishAnalysis dn i r f => exact pystrip_serialized_obj _ _ _
    | nutritionEstimate sz cal pp cc fa fi notes => exact pystrip_serialized_obj _ _ _
    | substituteList ing cat subs => exact pystrip_serialized_obj _ _ _
    | dishComparison sc ci u1 u2 cr cc kd => exact pystrip_serialized_obj _ _ _
  have h3 : pyJsonLoads (extractJsonStr (serializeEntity e)) = some (toPayload e) := by
    rw [h1, h2]
    exact pyJsonLoads_serValue (toPayload e)
  cases e with
  | dishAnalysis dn i r f =>
    simp +decide [extract, toolParse, h3, toPayload, pyGetItem, pyLookup, recordOf,
      kindOf, keyDishName, keyIngredients, keyRecipeSteps, keyFunFacts]
  | nutritionEstimate sz cal pp cc fa fi notes =>
    simp [extract, toolParse, h3, recordOf, kindOf]
  | substituteList ing cat subs =>
    simp +decide [extract, toolParse, h3, toPayload, extractSubstituteRecord, pyGetItem,
      pyGetDefault, pyLookup, recordOf, kindOf, keyIngredient, keyCategory, keySubstitutes]
  | dishComparison sc ci u1 u2 cr cc kd =>
    simp [extract, toolParse, h3, recordOf, kindOf]

/-- Witness for C7: a concrete backtick-free dish entity discharges the
hypothesis, and its serialized payload extracts back to its record. -/
theorem C7_witness :
    containsSeq fence (serializeEntity (Entity.dishAnalysis ("Tacos").data
      [("tortilla").data] [("cook").data] [("corn").data])) = false ∧
    extract (serializeEntity (Entity.dishAnalysis ("Tacos").data
        [("tortilla").data] [("cook").data] [("corn").data]))
        (kindOf (Entity.dishAnalysis ("Tacos").data
          [("tortilla").data] [("cook").data] [("corn").data])) =
      .ok (recordOf (Entity.dishAnalysis ("Tacos").data
        [("tortilla").data] [("cook").data] [("corn").data])) :=
  ⟨rfl, C7_amended_roundtrip (Entity.dishAnalysis ("Tacos").data
    [("tortilla").data] [("cook").data] [("corn").data]) rfl⟩

/-- Claim C9: against any well-formed database state (every stored id
below the AUTOINCREMENT counter), `save_analysis` returns the integer
identifier it assigned, and `get_analysis_by_id` on the updated state
with that identifier returns a record whose `dish_name`, `ingredients`,
`recipe_steps` and `fun_facts` decode to exactly the saved values. -/
theorem C9_save_then_get_roundtrip (db : DB) (hdb : DBWellFormed db)
    (dish_name : Str) (ingredients recipe_steps fun_facts : List Str)
    (image_hash : Option Str) :
    (save_analysis db dish_name ingredients recipe_steps fun_facts image_hash).2 =
      db.nextId ∧
    get_analysis_by_id
        (save_analysis db dish_name ingredients recipe_steps fun_facts image_hash).1
        db.nextId =
      some ⟨db.nextId, dish_name, some (strArr ingredients),
        some (strArr recipe_steps), some (strArr fun_facts)⟩ := by
  refine ⟨rfl, ?_⟩
  rw [get_analysis_by_id]
  have hfind : ((save_analysis db dish_name ingredients recipe_steps fun_facts
      image_hash).1.rows.find? (fun r => r.id = db.nextId)) =
      some ⟨db.nextId, dish_name, serValue (strArr ingredients),
        serValue (strArr recipe_steps), serValue (strArr fun_facts), image_hash⟩ := by
    rw [save_analysis]
    rw [List.find?_append]
    have hnone : db.rows.find? (fun r => decide (r.id = db.nextId)) = none := by
      rw [List.find?_eq_none]
      intro r hr
      have := hdb r hr
      simp
      omega
    rw [hnone]
    simp
  rw [hfind]
  simp only [pyJsonLoads_serValue]

/-- Witness for C9: saving into the empty database and reading the
returned identifier back yields the saved analysis. -/
theorem C9_witness :
    DBWellFormed ⟨[], 1⟩ ∧
    ((save_analysis ⟨[], 1⟩ ("Ceviche").data [("fish").data] [("cut").data]
        [("Peru").data] none).2 = (1 : Nat) ∧
     get_analysis_by_id (save_analysis ⟨[], 1⟩ ("Ceviche").data [("fish").data]
        [("cut").data] [("Peru").data] none).1 1 =
       some ⟨1, ("Ceviche").data, some (strArr [("fish").data]),
         some (strArr [("cut").data]), some (strArr [("Peru").data])⟩) :=
  ⟨fun r hr => by simp at hr,
   C9_save_then_get_roundtrip ⟨[], 1⟩ (fun r hr => by simp at hr)
     (("Ceviche").data) [("fish").data] [("cut").data] [("Peru").data] none⟩

theorem agentOp_spec (body : Except PyErr PyDict)
    (hok : ∀ d, body = .ok d →
      dictLookup d (("success").data) = some (.bool true)) :
    ∃ b, dictLookup (runAgentOp body) (("success").data) = some (.bool b) ∧
      (b = false → ∃ s, dictLookup (runAgentOp body) (("error").data) = some (.str s)) := by
  cases body with
  | ok d => exact ⟨true, hok d rfl, fun hb => nomatch hb⟩
  | error e =>
    refine ⟨false, ?_, fun _ => ⟨strOfPyErr e, ?_⟩⟩ <;>
      simp +decide [runAgentOp, dictLookup]

/-- Claim C10: each public agent method — `analyze_image`, `get_nutrition`
and `compare` — returns a dictionary (never propagating an exception, by
the catch-all `try/except` of src/agent.py) containing a boolean
`"success"` entry, and whenever that entry is false the dictionary also
contains a string `"error"` entry; this holds for every outcome of the
generative-model oracles, including raised invocation errors. -/
theorem C10_agent_methods_total :
    (∀ (visionReply : Except PyErr Str) (cotReply : Except PyErr (Option Str)),
      ∃ b, dictLookup (FoodAnalyzerAgent.analyze_image visionReply cotReply) (("success").data) =
          some (.bool b) ∧
        (b = false → ∃ s, dictLookup (FoodAnalyzerAgent.analyze_image visionReply cotReply)
            (("error").data) = some (.str s))) ∧
    (∀ (dish_name : Str) (ingredients : Option (List Str))
        (nutriReply : Except PyErr Str) (cotReply : Except PyErr (Option Str)),
      ∃ b, dictLookup (FoodAnalyzerAgent.get_nutrition dish_name ingredients nutriReply cotReply)
          (("success").data) = some (.bool b) ∧
        (b = false → ∃ s, dictLookup (FoodAnalyzerAgent.get_nutrition dish_name ingredients nutriReply
            cotReply) (("error").data) = some (.str s))) ∧
    (∀ (d1 : Str) (i1 : List Str) (d2 : Str) (i2 : List Str)
        (compReply : Except PyErr Str) (cotReply : Except PyErr (Option Str)),
      ∃ b, dictLookup (FoodAnalyzerAgent.compare d1 i1 d2 i2 compReply cotReply) (("success").data) =
          some (.bool b) ∧
        (b = false → ∃ s, dictLookup (FoodAnalyzerAgent.compare d1 i1 d2 i2 compReply cotReply)
            (("error").data) = some (.str s))) := by
  refine ⟨?_, ?_, ?_⟩
  · intro visionReply cotReply
    unfold FoodAnalyzerAgent.analyze_image
    refine agentOp_spec _ ?_
    intro d hd
    simp only [bind, Except.bind, pure, Except.pure] at hd
    repeat' split at hd
    all_goals try (simp only [reduceCtorEq] at hd)
    simp only [Except.ok.injEq] at hd
    subst hd
    simp +decide [dictLookup, keyDishName, keyIngredients, keyRecipeSteps, keyFunFacts]
  · intro dish_name ingredients nutriReply cotReply
    unfold FoodAnalyzerAgent.get_nutrition
    refine agentOp_spec _ ?_
    intro d hd
    simp only [bind, Except.bind, pure, Except.pure] at hd
    repeat' split at hd
    all_goals try (simp only [reduceCtorEq] at hd)
    simp only [Except.ok.injEq] at hd
    subst hd
    simp +decide [dictLookup, keyDishName]
  · intro d1 i1 d2 i2 compReply cotReply
    unfold FoodAnalyzerAgent.compare
    refine agentOp_spec _ ?_
    intro d hd
    simp only [bind, Except.bind, pure, Except.pure] at hd
    repeat' split at hd
    all_goals try (simp only [reduceCtorEq] at hd)
    simp only [Except.ok.injEq] at hd
    subst hd
    simp +decide [dictLookup]

/-- Witness for C10: a raised invocation error on the vision call yields
a dictionary with `success = false` and an error string. -/
theorem C10_witness :
    ∃ b, dictLookup (FoodAnalyzerAgent.analyze_image
        (.error (.apiError ("timeout").data)) (.ok none)) (("success").data) =
      some (.bool b) ∧
    (b = false → ∃ s, dictLookup (FoodAnalyzerAgent.analyze_image
        (.error (.apiError ("timeout").data)) (.ok none)) (("error").data) =
      some (.str s)) :=
  C10_agent_methods_total.1 (.error (.apiError ("timeout").data)) (.ok none)
